import Mathlib

/-!
Verification development for the RepMate repository.

The first half embeds the size-recommendation calculator
(sizeCalculator.js together with the size utilities of translations.js);
the second half embeds the OCR size-chart reconstruction code
(ocrParser.js).  JavaScript numbers are modelled as exact rationals,
JavaScript objects as insertion-ordered association lists, and the
JavaScript regular expressions used by the source are modelled by
bespoke scanners that follow the semantics of each concrete pattern.
-/

attribute [local semireducible] Rat.add Rat.sub Rat.mul Rat.inv

set_option maxRecDepth 10000

namespace RepMate

/-! ## Association lists: the JavaScript object model

JavaScript objects preserve insertion order of string keys; assigning to
an existing key keeps its position, assigning to a new key appends. -/

/-- Object property read: first binding of the key, if any. -/
def aget {α : Type} (l : List (String × α)) (k : String) : Option α :=
  (l.find? (fun p => p.1 == k)).map (·.2)

/-- Object property write: replace in place, or append when absent. -/
def aset {α : Type} (l : List (String × α)) (k : String) (v : α) : List (String × α) :=
  match l with
  | [] => [(k, v)]
  | p :: rest => if p.1 == k then (k, v) :: rest else p :: aset rest k v

/-! ## Size utilities from translations.js -/

/-- Characters treated as whitespace by the JavaScript string trim. -/
def jsWsChar (c : Char) : Bool :=
  c == ' ' || c == '\t' || c == '\n' || c == '\r' || c == '\x0b' || c == '\x0c'

/-- The JavaScript trim: strip whitespace from both ends. -/
def jsTrim (s : String) : String :=
  String.mk (((s.data.dropWhile jsWsChar).reverse.dropWhile jsWsChar).reverse)

/-- The JavaScript toUpperCase restricted to the characters in play. -/
def strUpper (s : String) : String := String.mk (s.data.map Char.toUpper)

/-- The JavaScript toLowerCase restricted to the characters in play. -/
def strLower (s : String) : String := String.mk (s.data.map Char.toLower)

/-- Decimal digit run to a natural number. -/
def digitsToNat (l : List Char) : Nat :=
  l.foldl (fun acc c => acc * 10 + (c.toNat - '0'.toNat)) 0

/-- The JavaScript parseInt in base 10: optional sign, then a digit run;
none when no digit is found (NaN in the source). -/
def jsParseInt (s : String) : Option Int :=
  let core : List Char → Option Int := fun l =>
    let ds := l.takeWhile Char.isDigit
    if ds.isEmpty then none else some (digitsToNat ds : Int)
  let l := s.data.dropWhile jsWsChar
  match l with
  | '-' :: rest => (core rest).map (fun n => -n)
  | '+' :: rest => core rest
  | _ => core l

/-- SIZE_ORDER from translations.js. -/
def SIZE_ORDER : List String :=
  ["XXS", "XS", "S", "M", "L", "XL", "XXL", "XXXL", "3XL", "4XL", "5XL"]

/-- NUMERIC_SIZE_ORDER from translations.js. -/
def NUMERIC_SIZE_ORDER : List String :=
  ["44", "46", "48", "50", "52", "54", "56", "58"]

/-- First index of a string in a list, if present. -/
def idxOfAux (s : String) : List String → Option Nat
  | [] => none
  | x :: xs => if x == s then some 0 else (idxOfAux s xs).map (· + 1)

/-- The JavaScript Array.indexOf on string lists: index or -1. -/
def jsIndexOf (l : List String) (s : String) : Int :=
  match idxOfAux s l with
  | some i => (i : Int)
  | none => -1

/-- getNextSizeUp from translations.js. -/
def getNextSizeUp (currentSize : String) : Option String :=
  let normalized := jsTrim (strUpper currentSize)
  let letterIndex := jsIndexOf SIZE_ORDER normalized
  if letterIndex ≠ -1 ∧ letterIndex < (SIZE_ORDER.length : Int) - 1 then
    SIZE_ORDER.get? (letterIndex.toNat + 1)
  else
    let numericIndex := jsIndexOf NUMERIC_SIZE_ORDER normalized
    if numericIndex ≠ -1 ∧ numericIndex < (NUMERIC_SIZE_ORDER.length : Int) - 1 then
      NUMERIC_SIZE_ORDER.get? (numericIndex.toNat + 1)
    else
      match jsParseInt normalized with
      | some num => some (toString (num + 2))
      | none => none

/-- compareSizes from translations.js. -/
def compareSizes (sizeA sizeB : String) : Int :=
  let normA := jsTrim (strUpper sizeA)
  let normB := jsTrim (strUpper sizeB)
  let letterIndexA := jsIndexOf SIZE_ORDER normA
  let letterIndexB := jsIndexOf SIZE_ORDER normB
  if letterIndexA ≠ -1 ∧ letterIndexB ≠ -1 then letterIndexA - letterIndexB
  else
    match jsParseInt normA, jsParseInt normB with
    | some numA, some numB => numA - numB
    | _, _ => 0

/-! ## The fit scorer: sizeCalculator.js -/

/-- An ease allowance triple, in centimeters. -/
structure Ease where
  min : ℚ
  ideal : ℚ
  max : ℚ
deriving Repr, DecidableEq

/-- EASE_ALLOWANCES.top, in source insertion order. -/
def EASE_top : List (String × Ease) :=
  [("chest", ⟨4, 8, 16⟩), ("shoulder", ⟨0, 2, 6⟩),
   ("sleeve", ⟨-2, 0, 4⟩), ("length", ⟨-2, 2, 8⟩)]

/-- EASE_ALLOWANCES.bottom, in source insertion order. -/
def EASE_bottom : List (String × Ease) :=
  [("waist", ⟨2, 4, 10⟩), ("hip", ⟨2, 6, 14⟩),
   ("length", ⟨-4, 0, 4⟩), ("thigh", ⟨2, 6, 12⟩)]

/-- The lookup EASE_ALLOWANCES with the fallback to the top table. -/
def easeConfigFor (garmentType : String) : List (String × Ease) :=
  if garmentType = "top" then EASE_top
  else if garmentType = "bottom" then EASE_bottom
  else EASE_top

/-- The record returned by calculateMeasurementFit. -/
structure MFit where
  score : ℚ
  fit : String
  diff : ℚ
deriving Repr, DecidableEq

/-- calculateMeasurementFit from sizeCalculator.js. -/
def calculateMeasurementFit (garmentMeasure bodyMeasure : ℚ) (ease : Ease) : MFit :=
  let diff := garmentMeasure - bodyMeasure
  if diff < ease.min then
    { score := max 0 (1/2 - (ease.min - diff) * (1/10)), fit := "tight", diff := diff }
  else if ease.min ≤ diff ∧ diff ≤ ease.ideal then
    let range := ease.ideal - ease.min
    let position := diff - ease.min
    { score := 7/10 + position / range * (3/10), fit := "right", diff := diff }
  else if ease.ideal < diff ∧ diff ≤ ease.max then
    let range := ease.max - ease.ideal
    let position := diff - ease.ideal
    { score := 1 - position / range * (2/10), fit := "loose", diff := diff }
  else
    { score := max (3/10) (8/10 - (diff - ease.max) * (1/20)), fit := "oversized", diff := diff }

/-- A size-chart row seen by the calculator: a size label plus the
numeric measurement properties of the row object. -/
structure SRow where
  size : String
  vals : List (String × ℚ)
deriving Repr, DecidableEq

/-- Garment value lookup with the bust-to-chest alias of the source. -/
def garmentValueOf (sizeData : SRow) (key : String) : Option ℚ :=
  match aget sizeData.vals key with
  | some v => some v
  | none => if key = "chest" then aget sizeData.vals "bust" else none

/-- User value lookup with the topLength and pantsLength aliases. -/
def userValueOf (userMeasurements : List (String × ℚ)) (key : String) : Option ℚ :=
  match aget userMeasurements key with
  | some v => some v
  | none =>
    if key = "length" then
      match aget userMeasurements "topLength" with
      | some v => some v
      | none => aget userMeasurements "pantsLength"
    else none

/-- The half-measurement correction applied inside calculateSizeFit:
ratio test first, absolute thresholds as the backup. -/
def halfAdjust (key : String) (garmentValue userValue : ℚ) : ℚ :=
  if key = "waist" ∨ key = "hip" ∨ key = "chest" then
    if garmentValue / userValue < 7/10 then garmentValue * 2
    else if garmentValue < 70 ∧ key = "chest" then garmentValue * 2
    else if garmentValue < 50 ∧ (key = "waist" ∨ key = "hip") then garmentValue * 2
    else garmentValue
  else garmentValue

/-- A per-measurement detail record stored under details. -/
structure MDetail where
  garment : ℚ
  body : ℚ
  score : ℚ
  fit : String
  diff : ℚ
deriving Repr, DecidableEq

/-- Capitalization of the first character, as in the source notes. -/
def capFirst (s : String) : String :=
  match s.data with
  | [] => ""
  | c :: cs => String.mk (c.toUpper :: cs)

/-- The notes emitted for one measurement. -/
def fitNotes (key : String) (fit : String) : List String :=
  if fit = "tight" then [capFirst key ++ " may be tight"]
  else if fit = "oversized" then [capFirst key ++ " may be very loose"]
  else []

/-- The accumulator of the measurement loop of calculateSizeFit. -/
structure FitState where
  details : List (String × MDetail)
  notes : List String
  totalScore : ℚ
  measurementCount : ℕ
  garmentBiggerCount : ℕ
  garmentSmallerCount : ℕ
deriving Repr, DecidableEq

/-- One iteration of the measurement loop of calculateSizeFit. -/
def sizeFitStep (sizeData : SRow) (userMeasurements : List (String × ℚ))
    (st : FitState) (entry : String × Ease) : FitState :=
  match garmentValueOf sizeData entry.1, userValueOf userMeasurements entry.1 with
  | some garmentValue, some userValue =>
    let adjustedGarment := halfAdjust entry.1 garmentValue userValue
    let fitResult := calculateMeasurementFit adjustedGarment userValue entry.2
    { details := aset st.details entry.1
        { garment := adjustedGarment, body := userValue,
          score := fitResult.score, fit := fitResult.fit, diff := fitResult.diff },
      notes := st.notes ++ fitNotes entry.1 fitResult.fit,
      totalScore := st.totalScore + fitResult.score,
      measurementCount := st.measurementCount + 1,
      garmentBiggerCount := st.garmentBiggerCount + (if 0 < fitResult.diff then 1 else 0),
      garmentSmallerCount := st.garmentSmallerCount + (if fitResult.diff < 0 then 1 else 0) }
  | _, _ => st

/-- The state after the whole measurement loop. -/
def fitStateOf (sizeData : SRow) (userMeasurements : List (String × ℚ))
    (garmentType : String) : FitState :=
  (easeConfigFor garmentType).foldl (sizeFitStep sizeData userMeasurements)
    ⟨[], [], 0, 0, 0, 0⟩

/-- The avgScore of calculateSizeFit. -/
def avgScoreOf (sizeData : SRow) (userMeasurements : List (String × ℚ))
    (garmentType : String) : ℚ :=
  let st := fitStateOf sizeData userMeasurements garmentType
  if 0 < st.measurementCount then st.totalScore / (st.measurementCount : ℚ) else 0

/-- Math.round of a score rescaled to two decimals. -/
def jsRound100 (q : ℚ) : ℚ := ((⌊q * 100 + 1/2⌋ : ℤ) : ℚ) / 100

/-- The overall fit category of calculateSizeFit. -/
def overallFit (avgScore : ℚ) (garmentBiggerCount garmentSmallerCount : ℕ) : String :=
  let isGarmentTooBig := garmentSmallerCount ≤ garmentBiggerCount
  if 85/100 ≤ avgScore then "right"
  else if 7/10 ≤ avgScore then (if isGarmentTooBig then "loose" else "tight")
  else if 1/2 ≤ avgScore then (if isGarmentTooBig then "oversized" else "tight")
  else (if isGarmentTooBig then "too_big" else "too_small")

/-- The record returned by calculateSizeFit. -/
structure SizeFit where
  score : ℚ
  fit : String
  details : List (String × MDetail)
  notes : List String
deriving Repr, DecidableEq

/-- calculateSizeFit from sizeCalculator.js. -/
def calculateSizeFit (sizeData : SRow) (userMeasurements : List (String × ℚ))
    (garmentType : String) : SizeFit :=
  let st := fitStateOf sizeData userMeasurements garmentType
  let avgScore := avgScoreOf sizeData userMeasurements garmentType
  { score := jsRound100 avgScore,
    fit := overallFit avgScore st.garmentBiggerCount st.garmentSmallerCount,
    details := st.details,
    notes := st.notes }

/-! ## calculateRecommendations -/

/-- A size chart as the calculator consumes it. -/
structure SChart where
  headers : List String
  rows : List SRow
deriving Repr, DecidableEq

/-- The baggy margin argument. -/
structure BaggyMargin where
  type : String
  value : ℚ
deriving Repr, DecidableEq

/-- One entry of the results array: the row size spread with its fit. -/
structure RItem where
  size : String
  score : ℚ
  fit : String
  details : List (String × MDetail)
  notes : List String
deriving Repr, DecidableEq

/-- The unsorted results array of calculateRecommendations. -/
def resultsOf (sizeChart : SChart) (userMeasurements : List (String × ℚ))
    (garmentType : String) : List RItem :=
  sizeChart.rows.map (fun row =>
    let f := calculateSizeFit row userMeasurements garmentType
    ⟨row.size, f.score, f.fit, f.details, f.notes⟩)

/-- Stable insertion of one element in front of the first element it may
precede.  Used to model the ECMAScript stable Array.sort. -/
def insertBy {α : Type} (le : α → α → Bool) (x : α) : List α → List α
  | [] => [x]
  | y :: ys => if le x y then x :: y :: ys else y :: insertBy le x ys

/-- Stable sort by a boolean comparison, modelling Array.sort with a
consistent comparator. -/
def sortBy {α : Type} (le : α → α → Bool) : List α → List α
  | [] => []
  | x :: xs => insertBy le x (sortBy le xs)

/-- The sort comparator of calculateRecommendations, as the relation
"comparator result is nonpositive": score descending, then native
indexOf of the size label descending. -/
def rankLe (sizeOrder : List String) (a b : RItem) : Bool :=
  if a.score = b.score then
    decide (jsIndexOf sizeOrder b.size ≤ jsIndexOf sizeOrder a.size)
  else decide (b.score < a.score)

/-- The ranked results array. -/
def rankedOf (sizeChart : SChart) (userMeasurements : List (String × ℚ))
    (garmentType : String) : List RItem :=
  sortBy (rankLe (sizeChart.rows.map SRow.size))
    (resultsOf sizeChart userMeasurements garmentType)

/-- Iterated getNextSizeUp, keeping the old label when no successor. -/
def stepUp : String → Nat → String
  | s, 0 => s
  | s, n + 1 =>
    stepUp (match getNextSizeUp s with | some nxt => nxt | none => s) n

/-- The primary measurement key of the baggy cm and percent paths. -/
def primaryKeyOf (garmentType : String) : String :=
  if garmentType = "top" then "chest" else "waist"

/-- The half-measurement adjustment used in the baggy cm and percent
paths: two sequential absolute-threshold checks, with no ratio test. -/
def baggyAdjust (primaryKey : String) (v : ℚ) : ℚ :=
  let v1 := if v < 70 ∧ primaryKey = "chest" then v * 2 else v
  if v1 < 50 ∧ primaryKey = "waist" then v1 * 2 else v1

/-- The target measurement of the baggy cm and percent paths. -/
def baggyTarget (baggyMargin : BaggyMargin) (userValue : ℚ) : ℚ :=
  if baggyMargin.type = "cm" then userValue + baggyMargin.value
  else userValue * (1 + baggyMargin.value / 100)

/-- One iteration of the best-match loop of the baggy cm and percent
paths; the none distance is the initial Infinity. -/
def bestStep (primaryKey : String) (target : ℚ)
    (acc : Option String × Option ℚ) (row : SRow) : Option String × Option ℚ :=
  match aget row.vals primaryKey with
  | none => acc
  | some v =>
    let garmentValue := baggyAdjust primaryKey v
    let d := |garmentValue - target|
    match acc.2 with
    | none => (some row.size, some d)
    | some bd => if d < bd then (some row.size, some d) else acc

/-- The best-match fold of the baggy cm and percent paths: earliest row
strictly improving the absolute distance to the target wins. -/
def bestMatchFold (rows : List SRow) (primaryKey : String) (target : ℚ) :
    Option String :=
  (rows.foldl (bestStep primaryKey target) (none, none)).1

/-- The rightFit and baggyFit projection records. -/
structure RFit where
  size : String
  confidence : ℚ
  notes : List String
deriving Repr, DecidableEq

/-- One entry of the allSizes output. -/
structure ASize where
  size : String
  fit : String
  score : ℚ
deriving Repr, DecidableEq

/-- The full output of calculateRecommendations. -/
structure RecOut where
  rightFit : Option RFit
  baggyFit : Option RFit
  allSizes : List ASize
deriving Repr, DecidableEq

/-- The baggy-fit selection of calculateRecommendations, factored out
of the source loop body for the proofs; the secondary lookup of the
size-type branch indexes the size-sorted rows at rightSizeIndex plus the
margin value, which as in the source is only meaningful for integral
margin values (a fractional index would read undefined), and the size
sort models the ECMAScript stable sort. -/
def baggyFitOf (sizeChart : SChart) (userMeasurements : List (String × ℚ))
    (garmentType : String) (baggyMargin : BaggyMargin) : Option RItem :=
  let ranked := rankedOf sizeChart userMeasurements garmentType
  match ranked.head? with
  | none => none
  | some rf =>
    if baggyMargin.type = "size" then
      let targetSize := stepUp rf.size (Int.toNat ⌈baggyMargin.value⌉)
      match ranked.find? (fun r => strUpper r.size == strUpper targetSize) with
      | some found => some found
      | none =>
        let sortedBySizeOrder :=
          sortBy (fun a b => decide (compareSizes a.size b.size ≤ 0)) sizeChart.rows
        match sortedBySizeOrder.findIdx? (fun r => r.size == rf.size) with
        | some rightSizeIndex =>
          if (rightSizeIndex : ℚ) + baggyMargin.value < (sortedBySizeOrder.length : ℚ) then
            match sortedBySizeOrder.get? (rightSizeIndex + Int.toNat ⌊baggyMargin.value⌋) with
            | some baggyRow => ranked.find? (fun r => r.size == baggyRow.size)
            | none => none
          else none
        | none => none
    else if baggyMargin.type = "cm" ∨ baggyMargin.type = "percent" then
      match aget userMeasurements (primaryKeyOf garmentType) with
      | none => none
      | some userValue =>
        let target := baggyTarget baggyMargin userValue
        match bestMatchFold sizeChart.rows (primaryKeyOf garmentType) target with
        | some bestMatch =>
          if bestMatch = "" then none
          else ranked.find? (fun r => r.size == bestMatch)
        | none => none
    else none

/-- calculateRecommendations from sizeCalculator.js. -/
def calculateRecommendations (sizeChart : SChart)
    (userMeasurements : List (String × ℚ)) (garmentType : String)
    (baggyMargin : BaggyMargin) : RecOut :=
  let results := resultsOf sizeChart userMeasurements garmentType
  let ranked := rankedOf sizeChart userMeasurements garmentType
  let rightFit := ranked.head?
  let baggyFit := baggyFitOf sizeChart userMeasurements garmentType baggyMargin
  let baggyFit2 : Option RItem :=
    match baggyFit with
    | some x => some x
    | none => if 1 < results.length then ranked.get? 1 else none
  { rightFit := rightFit.map (fun r => ⟨r.size, r.score, r.notes⟩),
    baggyFit := baggyFit2.map (fun r => ⟨r.size, r.score, r.notes⟩),
    allSizes := ranked.map (fun r => ⟨r.size, r.fit, r.score⟩) }

end RepMate


namespace RepMate

/-! ## Closed forms used by the fit-scorer theorems -/

/-- The condition under which a measurement key contributes. -/
def contribCond (sizeData : SRow) (userMeasurements : List (String × ℚ))
    (p : String × Ease) : Bool :=
  (garmentValueOf sizeData p.1).isSome && (userValueOf userMeasurements p.1).isSome

/-- The ease-table entries that contribute to the score of a row:
exactly those whose key is present, after aliasing, on both sides. -/
def contribOf (sizeData : SRow) (userMeasurements : List (String × ℚ))
    (garmentType : String) : List (String × Ease) :=
  (easeConfigFor garmentType).filter (contribCond sizeData userMeasurements)

/-- The per-measurement detail of a contributing ease entry. -/
def detailOf (sizeData : SRow) (userMeasurements : List (String × ℚ))
    (p : String × Ease) : MDetail :=
  match garmentValueOf sizeData p.1, userValueOf userMeasurements p.1 with
  | some garmentValue, some userValue =>
    let adjustedGarment := halfAdjust p.1 garmentValue userValue
    let fitResult := calculateMeasurementFit adjustedGarment userValue p.2
    ⟨adjustedGarment, userValue, fitResult.score, fitResult.fit, fitResult.diff⟩
  | _, _ => ⟨0, 0, 0, "", 0⟩

end RepMate

namespace RepMate

/-! ## Ranking and baggy-fit closed forms -/

/-- The ranking relation of the claim text: score descending, ties to
the entry carrying the larger native row index. -/
def pairLe (a b : ℕ × RItem) : Bool :=
  if a.2.score = b.2.score then decide (b.1 ≤ a.1) else decide (b.2.score < a.2.score)

/-- The ranking described by the specification: the per-row results
tagged with their native row indices, sorted by score descending with
ties preferring the larger native index. -/
def specRanked (sizeChart : SChart) (userMeasurements : List (String × ℚ))
    (garmentType : String) : List (ℕ × RItem) :=
  sortBy pairLe (resultsOf sizeChart userMeasurements garmentType).enum

/-- The distance of a row to the baggy target, under the adjustment the
baggy path applies; zero junk value for rows without the key. -/
def distOf (primaryKey : String) (target : ℚ) (r : SRow) : ℚ :=
  match aget r.vals primaryKey with
  | some v => |baggyAdjust primaryKey v - target|
  | none => 0

/-- A chart with a duplicated size label and two rows of equal rounded
score but different category: a counterexample input for the tie rule. -/
def c4chart : SChart :=
  ⟨["Size", "Chest"], [⟨"M", [("chest", 106)]⟩, ⟨"M", [("chest", 1141/10)]⟩]⟩

/-- The user measurements of the duplicated-label counterexample. -/
def c4user : List (String × ℚ) := [("chest", 100)]

/-- The standard four-size top chart of the repository test-suite. -/
def wchart : SChart :=
  ⟨["Size", "Chest", "Shoulder", "Length", "Sleeve"],
   [⟨"S", [("chest", 100), ("shoulder", 44), ("length", 68), ("sleeve", 60)]⟩,
    ⟨"M", [("chest", 104), ("shoulder", 46), ("length", 70), ("sleeve", 62)]⟩,
    ⟨"L", [("chest", 108), ("shoulder", 48), ("length", 72), ("sleeve", 64)]⟩,
    ⟨"XL", [("chest", 112), ("shoulder", 50), ("length", 74), ("sleeve", 66)]⟩]⟩

/-- A chart whose baggy cm selection disagrees with the fit-scoring
doubling: the first row doubles on the absolute threshold in both
readings, the second doubles only under the ratio test. -/
def c5chart : SChart := ⟨[], [⟨"S", [("chest", 45)]⟩, ⟨"M", [("chest", 88)]⟩]⟩

/-- The user measurements of the baggy-doubling counterexample. -/
def c5user : List (String × ℚ) := [("chest", 130)]

end RepMate

namespace RepMate

/-! ## Character classes and scanning infrastructure for ocrParser.js

Each JavaScript regular expression of the source is modelled by a
bespoke matcher over character lists.  A matcher receives the previous
character (for word boundaries) and the remaining input, and returns a
payload together with the number of characters consumed; a global scan
then advances past each match, or by one character on failure, exactly
as a global regex does. -/

/-- The JavaScript regex word class: ASCII letters, digits, underscore. -/
def isWordChar (c : Char) : Bool := c.isAlphanum || c == '_'

/-- Lowercasing of a character list. -/
def lowerL (l : List Char) : List Char := l.map Char.toLower

/-- Trim of a character list, as the JavaScript trim. -/
def trimL (l : List Char) : List Char :=
  ((l.dropWhile jsWsChar).reverse.dropWhile jsWsChar).reverse

/-- Case-sensitive literal prefix test. -/
def csPrefix : List Char → List Char → Bool
  | [], _ => true
  | _ :: _, [] => false
  | p :: ps, c :: cs => (c == p) && csPrefix ps cs

/-- Case-insensitive literal prefix test; the pattern is lowercase. -/
def ciPrefix : List Char → List Char → Bool
  | [], _ => true
  | _ :: _, [] => false
  | p :: ps, c :: cs => (c.toLower == p) && ciPrefix ps cs

/-- Substring occurrence test. -/
def hasInfix (pat : List Char) : List Char → Bool
  | [] => pat.isEmpty
  | c :: cs => csPrefix pat (c :: cs) || hasInfix pat cs

/-- First position of a substring occurrence. -/
def indexOfSub (pat : List Char) : List Char → Option Nat
  | [] => if pat.isEmpty then some 0 else none
  | c :: cs =>
    if csPrefix pat (c :: cs) then some 0
    else (indexOfSub pat cs).map (· + 1)

/-- Does some suffix of the list satisfy the predicate. -/
def anyPos (p : List Char → Bool) : List Char → Bool
  | [] => p []
  | c :: cs => p (c :: cs) || anyPos p cs

/-- A word boundary holds before a word character at this position. -/
def noWordBefore : Option Char → Bool
  | none => true
  | some c => !isWordChar c

/-- A word boundary holds after a word character ending at offset k. -/
def noWordAt (l : List Char) (k : Nat) : Bool :=
  match l.get? k with
  | none => true
  | some c => !isWordChar c

/-- Fuel-indexed global scan of a matcher over the input, threading the
previous character for word boundaries; advances past matches or by one
character.  Each step consumes at least one input character, so fuel
equal to the input length suffices; the fuel keeps the recursion
structural so that terms reduce in the kernel. -/
def gscanF {α : Type} (m : Option Char → List Char → Option (α × Nat)) :
    Nat → Option Char → List Char → List α
  | 0, _, _ => []
  | _ + 1, _, [] => []
  | fuel + 1, prev, c :: cs =>
    match m prev (c :: cs) with
    | some (a, k) =>
      a :: gscanF m fuel ((c :: cs).get? (max k 1 - 1)) (List.drop (max k 1) (c :: cs))
    | none => gscanF m fuel (some c) cs

/-- Global scan, with fuel instantiated to the input length. -/
def gscan {α : Type} (m : Option Char → List Char → Option (α × Nat))
    (prev : Option Char) (l : List Char) : List α :=
  gscanF m l.length prev l

/-- Fuel-indexed global replace of a matcher over the input: the payload
is the replacement text, the scan continues past the matched source. -/
def greplaceF (m : Option Char → List Char → Option (List Char × Nat)) :
    Nat → Option Char → List Char → List Char
  | 0, _, l => l
  | _ + 1, _, [] => []
  | fuel + 1, prev, c :: cs =>
    match m prev (c :: cs) with
    | some (rep, k) =>
      rep ++ greplaceF m fuel ((c :: cs).get? (max k 1 - 1)) (List.drop (max k 1) (c :: cs))
    | none => c :: greplaceF m fuel (some c) cs

/-- Global replace, with fuel instantiated to the input length. -/
def greplace (m : Option Char → List Char → Option (List Char × Nat))
    (prev : Option Char) (l : List Char) : List Char :=
  greplaceF m l.length prev l

/-- Fuel-indexed global literal replacement, for the dictionary
translation; an empty pattern never rewrites. -/
def replAllF (pat rep : List Char) : Nat → List Char → List Char
  | 0, l => l
  | _ + 1, [] => []
  | fuel + 1, c :: cs =>
    if pat ≠ [] ∧ csPrefix pat (c :: cs) = true then
      rep ++ replAllF pat rep fuel (List.drop pat.length (c :: cs))
    else c :: replAllF pat rep fuel cs

/-- Global literal replacement, with fuel instantiated to the length. -/
def replAll (pat rep : List Char) (l : List Char) : List Char :=
  replAllF pat rep l.length l

/-- Split on newline characters, keeping empty segments. -/
def splitNL : List Char → List (List Char)
  | [] => [[]]
  | c :: cs =>
    if c == '\n' then [] :: splitNL cs
    else
      match splitNL cs with
      | [] => [[c]]
      | h :: t => (c :: h) :: t

/-- The common line preparation of the source: split, trim, drop empty. -/
def toLines (l : List Char) : List (List Char) :=
  ((splitNL l).map trimL).filter (fun x => !x.isEmpty)

/-- Digit value of a character. -/
def dNat (c : Char) : Nat := c.toNat - '0'.toNat

/-- Value of a fraction digit run after the decimal point. -/
def fracVal (fs : List Char) : ℚ :=
  (digitsToNat fs : ℚ) / ((10 : ℚ) ^ fs.length)

/-! ## The concrete matchers -/

/-- The letter size alternatives, lowercase, in source order. -/
def letterSizeAlts : List (List Char) :=
  (["xxs", "xs", "s", "m", "l", "xl", "xxl", "xxxl", "3xl", "4xl", "5xl"]).map
    String.data

/-- Case-insensitive alternation with word boundaries on both sides;
the payload is the matched text in original case. -/
def altB (alts : List (List Char)) (prev : Option Char) (l : List Char) :
    Option (List Char × Nat) :=
  if noWordBefore prev then
    alts.findSome? (fun a =>
      if ciPrefix a l && noWordAt l a.length then some (l.take a.length, a.length)
      else none)
  else none

/-- The letter-size token matcher with boundaries. -/
def letterSizeB (prev : Option Char) (l : List Char) : Option (List Char × Nat) :=
  altB letterSizeAlts prev l

/-- The EU size matcher for 44 to 58 with boundaries. -/
def euSizeM (prev : Option Char) (l : List Char) : Option (List Char × Nat) :=
  if noWordBefore prev then
    match l with
    | d1 :: d2 :: _ =>
      if ((d1 == '4' && decide ('4' ≤ d2 ∧ d2 ≤ '9')) ||
          (d1 == '5' && decide ('0' ≤ d2 ∧ d2 ≤ '8'))) && noWordAt l 2 then
        some ([d1, d2], 2)
      else none
    | _ => none
  else none

/-- The single digit 1 to 9 matcher with boundaries. -/
def singleDigitM (prev : Option Char) (l : List Char) : Option (List Char × Nat) :=
  if noWordBefore prev then
    match l with
    | d :: _ =>
      if decide ('1' ≤ d ∧ d ≤ '9') && noWordAt l 1 then some ([d], 1) else none
    | [] => none
  else none

/-- One or two digits with boundaries, two digits preferred. -/
def digit12Part (l : List Char) : Option (List Char × Nat) :=
  match l with
  | d1 :: rest =>
    if d1.isDigit then
      match rest with
      | d2 :: _ =>
        if d2.isDigit && noWordAt l 2 then some ([d1, d2], 2)
        else if noWordAt l 1 then some ([d1], 1)
        else none
      | [] => some ([d1], 1)
    else none
  | [] => none

/-- The size-label matcher of the detection patterns: the letter sizes
followed by the one-or-two digit alternative, with boundaries. -/
def sizeLabelM (prev : Option Char) (l : List Char) : Option (List Char × Nat) :=
  match altB letterSizeAlts prev l with
  | some r => some r
  | none => if noWordBefore prev then digit12Part l else none

/-- Two-or-three digit number with optional tenths, no boundaries. -/
def numsNoB23M (_prev : Option Char) (l : List Char) : Option (ℚ × Nat) :=
  match l with
  | d1 :: d2 :: rest =>
    if d1.isDigit && d2.isDigit then
      let two := 10 * dNat d1 + dNat d2
      match rest with
      | d3 :: rest2 =>
        if d3.isDigit then
          let three := 10 * two + dNat d3
          match rest2 with
          | '.' :: f :: _ =>
            if f.isDigit then some ((three : ℚ) + (dNat f : ℚ) / 10, 5)
            else some ((three : ℚ), 3)
          | _ => some ((three : ℚ), 3)
        else if d3 == '.' then
          match rest2 with
          | f :: _ =>
            if f.isDigit then some ((two : ℚ) + (dNat f : ℚ) / 10, 4)
            else some ((two : ℚ), 2)
          | [] => some ((two : ℚ), 2)
        else some ((two : ℚ), 2)
      | [] => some ((two : ℚ), 2)
    else none
  | _ => none

/-- The tail of the bounded number matcher: two or three digits with
optional tenths, requiring a word boundary after the match, trying the
longer candidates first as the regex backtracking does. -/
def numTailB (l : List Char) : Option (ℚ × Nat) :=
  match l with
  | d1 :: d2 :: rest =>
    if d1.isDigit && d2.isDigit then
      let two := 10 * dNat d1 + dNat d2
      match rest with
      | d3 :: rest2 =>
        if d3.isDigit then
          let three := 10 * two + dNat d3
          match rest2 with
          | '.' :: f :: _ =>
            if f.isDigit && noWordAt l 5 then
              some ((three : ℚ) + (dNat f : ℚ) / 10, 5)
            else if noWordAt l 3 then some ((three : ℚ), 3)
            else none
          | _ => if noWordAt l 3 then some ((three : ℚ), 3) else none
        else if d3 == '.' then
          match rest2 with
          | f :: _ =>
            if f.isDigit && noWordAt l 4 then some ((two : ℚ) + (dNat f : ℚ) / 10, 4)
            else if noWordAt l 2 then some ((two : ℚ), 2)
            else none
          | [] => some ((two : ℚ), 2)
        else if noWordAt l 2 then some ((two : ℚ), 2) else none
      | [] => some ((two : ℚ), 2)
    else none
  | _ => none

/-- Two-or-three digit number with optional tenths and boundaries. -/
def numsB23M (prev : Option Char) (l : List Char) : Option (ℚ × Nat) :=
  if noWordBefore prev then numTailB l else none

/-- Any decimal number, as the unanchored digit pattern: a digit run,
an optional point, a further digit run. -/
def numsAnyM (_prev : Option Char) (l : List Char) : Option (ℚ × Nat) :=
  match l with
  | c :: _ =>
    if c.isDigit then
      let ds := l.takeWhile Char.isDigit
      let rest := l.drop ds.length
      match rest with
      | '.' :: rest2 =>
        let fs := rest2.takeWhile Char.isDigit
        some ((digitsToNat ds : ℚ) + fracVal fs, ds.length + 1 + fs.length)
      | _ => some ((digitsToNat ds : ℚ), ds.length)
    else none
  | [] => none

/-- The unit alternatives of the unit-qualified number pattern. -/
def unitAlts : List (List Char) :=
  (["cm", "inch", "in", "\"", "'", "厘米", "公分", "英寸"]).map String.data

/-- The unit-qualified number matcher: a number, optional whitespace,
then one of the unit alternatives, case-insensitively. -/
def unitNumM (_prev : Option Char) (l : List Char) : Option (Unit × Nat) :=
  match l with
  | c :: _ =>
    if c.isDigit then
      let ds := l.takeWhile Char.isDigit
      let rest := l.drop ds.length
      let dotted := match rest with
        | '.' :: r => (1, r)
        | _ => (0, rest)
      let fs := dotted.2.takeWhile Char.isDigit
      let rest3 := dotted.2.drop fs.length
      let ws := rest3.takeWhile jsWsChar
      let rest4 := rest3.drop ws.length
      match unitAlts.findSome? (fun a =>
          if ciPrefix a rest4 then some a.length else none) with
      | some ulen => some ((), ds.length + dotted.1 + fs.length + ws.length + ulen)
      | none => none
    else none
  | [] => none

/-- The measurement keyword alternatives of the detection pattern. -/
def keywordAlts : List (List Char) :=
  (["尺码", "尺寸", "衣长", "胸围", "肩宽", "袖长", "腰围", "臀围", "裤长",
    "size", "chest", "length", "shoulder", "sleeve", "waist", "hip"]).map
    String.data

/-- The keyword test of containsSizeGuide: a case-insensitive substring
match of any keyword alternative. -/
def testKeywords (l : List Char) : Bool :=
  keywordAlts.any (fun p => hasInfix p (lowerL l))

/-- The unit-qualified number test. -/
def testMeasurementWithUnit (l : List Char) : Bool :=
  !(gscan unitNumM none l).isEmpty

/-- The table-number test: a bounded two-or-three digit number. -/
def testTableNumbers (l : List Char) : Bool :=
  !(gscan numsB23M none l).isEmpty

/-- The size-label test of the detection patterns. -/
def testSizeLabels (l : List Char) : Bool :=
  !(gscan sizeLabelM none l).isEmpty

/-- containsSizeGuide from ocrParser.js; none models the null input. -/
def containsSizeGuide (text : Option String) : Bool :=
  match text with
  | none => false
  | some s =>
    if s = "" then false
    else
      let l := s.data
      let hasKeywords := testKeywords l
      let hasMeasurements := testMeasurementWithUnit l || testTableNumbers l
      let hasSizeLabels := testSizeLabels l
      hasKeywords && (hasMeasurements || hasSizeLabels)

end RepMate

namespace RepMate

/-! ## Dictionary data from lib/translations.js -/

/-- CN_TO_EN from translations.js, in the insertion order of the object
literal, which Object.entries preserves. -/
def CN_TO_EN : List (String × String) :=
  [("尺码", "Size"), ("尺寸", "Size"), ("码数", "Size"), ("号码", "Size"),
   ("均码", "One Size"),
   ("衣长", "Length"), ("全长", "Total Length"), ("身长", "Body Length"),
   ("前长", "Front Length"), ("后长", "Back Length"),
   ("胸围", "Chest"), ("胸園", "Chest"), ("胸宽", "Chest Width"),
   ("肩宽", "Shoulder"), ("袖长", "Sleeve"), ("抽长", "Sleeve"),
   ("袖口", "Cuff"), ("领宽", "Collar Width"), ("领高", "Collar Height"),
   ("帽高", "Hood Height"), ("帽宽", "Hood Width"),
   ("腰围", "Waist"), ("臀围", "Hip"), ("裤长", "Pants Length"),
   ("裙长", "Skirt Length"), ("下摆", "Hem"), ("裤脚", "Leg Opening"),
   ("大腿围", "Thigh"), ("坐围", "Hip Width"),
   ("厘米", "cm"), ("公分", "cm"), ("英寸", "inch"),
   ("推荐尺码", "Recommended Size"), ("推荐体重", "Recommended Weight"),
   ("推荐身高", "Recommended Height"), ("适合体重", "Suitable Weight"),
   ("适合身高", "Suitable Height"), ("建议体重", "Suggested Weight"),
   ("建议身高", "Suggested Height"), ("参考体重", "Reference Weight"),
   ("参考身高", "Reference Height"),
   ("公斤", "kg"), ("斤", "jin"),
   ("宽松", "Loose Fit"), ("修身", "Slim Fit"), ("常规", "Regular Fit"),
   ("紧身", "Tight Fit"),
   ("棉", "Cotton"), ("聚酯纤维", "Polyester"), ("涤纶", "Polyester"),
   ("尼龙", "Nylon"), ("羊毛", "Wool"), ("羊绒", "Cashmere"),
   ("真丝", "Silk"), ("皮革", "Leather"), ("鹅绒", "Goose Down"),
   ("鸭绒", "Duck Down"), ("充绒量", "Down Fill"),
   ("黑色", "Black"), ("白色", "White"), ("灰色", "Gray"), ("红色", "Red"),
   ("蓝色", "Blue"), ("绿色", "Green"), ("黄色", "Yellow"), ("棕色", "Brown"),
   ("卡其", "Khaki"), ("米色", "Beige"), ("藏青", "Navy"),
   ("军绿", "Army Green"), ("酒红", "Burgundy"),
   ("重量", "Weight"), ("克", "g"), ("男", "Men"), ("女", "Women"),
   ("中性", "Unisex"), ("单位", "Unit"), ("图片", "Picture")]

/-- translateChinese on character lists: the dictionary entries sorted
stably by descending key length, each applied as a global literal
replacement in order.  The dictionary keys are single-code-unit Chinese
characters, so the JavaScript length agrees with the character count. -/
def translateChineseL (l : List Char) : List Char :=
  (sortBy (fun a b => decide (b.1.length ≤ a.1.length)) CN_TO_EN).foldl
    (fun acc p => replAll p.1.data p.2.data acc) l

/-- MEASUREMENT_KEYS from translations.js. -/
def MEASUREMENT_KEYS : List (String × String) :=
  [("Length", "length"), ("Total Length", "length"), ("Body Length", "length"),
   ("Front Length", "length"), ("Chest", "chest"), ("Chest Width", "chest"),
   ("Shoulder", "shoulder"), ("Sleeve", "sleeve"), ("Cuff", "cuff"),
   ("Waist", "waist"), ("Hip", "hip"), ("Hip Width", "hip"),
   ("Pants Length", "length"), ("Leg Opening", "legOpening"),
   ("Thigh", "thigh"), ("Hem", "hem")]

/-- getMeasurementKey from translations.js: trim, exact lookup, null on
a miss. -/
def getMeasurementKey (term : String) : Option String :=
  aget MEASUREMENT_KEYS (jsTrim term)

/-! ## OCR error fixes of parseSizeChart and parseNumericSizeFormat -/

/-- Dollar sign before a digit becomes five. -/
def ocrFix1M (_prev : Option Char) (l : List Char) : Option (List Char × Nat) :=
  match l with
  | '$' :: d :: _ => if d.isDigit then some (['5', d], 2) else none
  | _ => none

/-- A capital S before a digit, delimited by boundaries, becomes five. -/
def ocrFix2M (prev : Option Char) (l : List Char) : Option (List Char × Nat) :=
  if noWordBefore prev then
    match l with
    | 'S' :: d :: _ => if d.isDigit && noWordAt l 2 then some (['5', d], 2) else none
    | _ => none
  else none

/-- A digit before a dollar sign, after a boundary, gains a trailing five. -/
def ocrFix3M (prev : Option Char) (l : List Char) : Option (List Char × Nat) :=
  if noWordBefore prev then
    match l with
    | d :: '$' :: _ => if d.isDigit then some ([d, '5'], 2) else none
    | _ => none
  else none

/-- A digit before a capital S, delimited by boundaries, gains a five. -/
def ocrFix4M (prev : Option Char) (l : List Char) : Option (List Char × Nat) :=
  if noWordBefore prev then
    match l with
    | d :: 'S' :: _ => if d.isDigit && noWordAt l 2 then some ([d, '5'], 2) else none
    | _ => none
  else none

/-- The four chained OCR replacements of the source, in order. -/
def ocrFix (l : List Char) : List Char :=
  greplace ocrFix4M none
    (greplace ocrFix3M none (greplace ocrFix2M none (greplace ocrFix1M none l)))

/-! ## The row object model

Parsed rows mix string values (the size label) with numeric values, and
the alternative-format branch can overwrite the size label with a
number, so row values are a sum of the two. -/

/-- A JavaScript value stored in a parsed row: a string or a number. -/
inductive JVal where
  | str (s : String)
  | num (q : ℚ)
deriving DecidableEq

/-- A parsed row: an insertion-ordered object. -/
abbrev Obj := List (String × JVal)

/-- The size property of a row when it holds a string, else the empty
string; comparisons in the source use strict equality on the label. -/
def rowSize (r : Obj) : String :=
  match aget r "size" with
  | some (JVal.str s) => s
  | _ => ""

/-- A single-strategy result: headers and rows. -/
structure PResult where
  headers : List String
  rows : List Obj
deriving DecidableEq

/-- One table of the multi-table path. -/
structure OTable where
  headers : List String
  rows : List Obj
  garmentType : Option String
deriving DecidableEq

/-- The full parseSizeChart output. -/
structure SizeChartOut where
  headers : List String
  rows : List Obj
  tables : List OTable
  rawText : String
  translatedText : String
deriving DecidableEq

/-- First-occurrence deduplication, as a JavaScript Set preserves. -/
def dedupL (l : List String) : List String :=
  l.foldl (fun acc s => if s ∈ acc then acc else acc ++ [s]) []

/-- First keyword of the association list occurring in the lowercased
line, mapped to its standard name. -/
def findKeyword (kws : List (String × String)) (line : List Char) : Option String :=
  (kws.find? (fun p => hasInfix p.1.data (lowerL line))).map (·.2)

/-- Fresh-key search of parseMultipleTables: the base name when free,
else the first numbered variant from two upward that is free. -/
def freshKeyAux {α : Type} (data : List (String × α)) (name : String) :
    Nat → Nat → String
  | 0, c => name ++ toString c
  | fuel + 1, c =>
    let k := name ++ toString c
    if (aget data k).isNone then k else freshKeyAux data name fuel (c + 1)

/-- Fresh key: the data has finitely many keys, so the fuel of one more
than the data length always suffices. -/
def freshKey {α : Type} (data : List (String × α)) (name : String) : String :=
  if (aget data name).isNone then name
  else freshKeyAux data name (data.length + 1) 2

/-- Uppercased string of a character-list token. -/
def upperS (t : List Char) : String :=
  String.mk (t.map Char.toUpper)

/-- Capitalised header form: first character uppercased, rest lowered. -/
def capFirstLower (k : List Char) : String :=
  match k with
  | [] => ""
  | c :: cs => String.mk (c.toUpper :: cs.map Char.toLower)

end RepMate

namespace RepMate

/-! ## parseMultipleTables from ocrParser.js -/

/-- The measurement keyword map of parseMultipleTables, in entry order;
the bare length entry precedes pants length, so a pants-length line is
classified as length. -/
def mtKeywords : List (String × String) :=
  [("length", "length"), ("pants length", "pantsLength"), ("chest", "chest"),
   ("bust", "chest"), ("shoulder", "shoulder"), ("sleeve", "sleeve"),
   ("waist", "waist"), ("hip", "hip"), ("thigh", "thigh"),
   ("leg opening", "legOpening"), ("inseam", "inseam"), ("hem", "hem")]

/-- The anchored size-prefix test: the word size, case-insensitively, at
the start of the line, followed by at least one whitespace character. -/
def startsWithSizeWs (line : List Char) : Bool :=
  ciPrefix ("size".data) line &&
    (match line.get? 4 with
     | some c => jsWsChar c
     | none => false)

/-- The size-digits pattern anchored at the start of the list: the word
size, whitespace, a nonzero digit, whitespace, a nonzero digit. -/
def sizeDigitsAt (l : List Char) : Bool :=
  if ciPrefix ("size".data) l then
    let r1 := l.drop 4
    let ws1 := r1.takeWhile jsWsChar
    if ws1.isEmpty then false
    else
      match r1.drop ws1.length with
      | d1 :: r2 =>
        if decide ('1' ≤ d1 ∧ d1 ≤ '9') then
          let ws2 := r2.takeWhile jsWsChar
          if ws2.isEmpty then false
          else
            match r2.drop ws2.length with
            | d2 :: _ => decide ('1' ≤ d2 ∧ d2 ≤ '9')
            | [] => false
        else false
      | [] => false
  else false

/-- The unanchored size-digits test of the size-row detection. -/
def hasSizeDigits (l : List Char) : Bool :=
  anyPos sizeDigitsAt l

/-- A size header row: the size prefix plus EU sizes, letter sizes, or
the single-digit pattern. -/
def isSizeHeaderLine (line : List Char) : Bool :=
  startsWithSizeWs line &&
    (!(gscan euSizeM none line).isEmpty ||
     !(gscan letterSizeB none line).isEmpty ||
     hasSizeDigits line)

/-- Indices of the size header rows. -/
def sizeRowIndices (lines : List (List Char)) : List Nat :=
  (lines.enum.filter (fun p => isSizeHeaderLine p.2)).map Prod.fst

/-- Size extraction from a size row: two or more EU sizes, else two or
more letter sizes uppercased, else two or more single digits. -/
def extractSizes (sizeLine : List Char) : List String :=
  let eu := gscan euSizeM none sizeLine
  if 2 ≤ eu.length then eu.map String.mk
  else
    let lm := gscan letterSizeB none sizeLine
    if 2 ≤ lm.length then lm.map upperS
    else
      let sm := gscan singleDigitM none sizeLine
      if 2 ≤ sm.length then sm.map String.mk else []

/-- The skip test of the segment loop, case-insensitively. -/
def mtSkip (line : List Char) : Bool :=
  hasInfix ("dior".data) (lowerL line) ||
  hasInfix ("recommended".data) (lowerL line) ||
  hasInfix ("weight".data) (lowerL line)

/-- One relevant line of a table segment folded into the measurement
data: skip listed lines, find a keyword, collect plausible values, and
store them under a fresh key, guessing a name for unlabeled rows. -/
def mtLineStep (nsizes : Nat) (data : List (String × List ℚ)) (line : List Char) :
    List (String × List ℚ) :=
  if mtSkip line then data
  else
    let foundMeasurement := findKeyword mtKeywords line
    let numbers := gscan numsAnyM none line
    if numbers.isEmpty then data
    else
      let values := numbers.filter (fun n => decide (10 ≤ n ∧ n ≤ 250))
      if nsizes ≤ values.length then
        let measurementValues := values.take nsizes
        match foundMeasurement with
        | some name => aset data (freshKey data name) measurementValues
        | none =>
          if data.isEmpty then data
          else
            let avgValue :=
              measurementValues.foldl (· + ·) 0 / (measurementValues.length : ℚ)
            let guessed :=
              if 90 < avgValue then
                if (aget data "pantsLength").isSome then "waist" else "pantsLength"
              else if 50 < avgValue then
                if (aget data "length").isSome then "chest" else "length"
              else if 35 < avgValue then
                if (aget data "hip").isSome then "thigh" else "hip"
              else "legOpening"
            aset data (freshKey data guessed) measurementValues
      else data

/-- Row construction shared by the table builders: one row per size,
collecting the value of each measurement at that index, kept only when
some measurement joined the size label. -/
def buildSizeRows (sizes : List String) (data : List (String × List ℚ)) :
    List Obj :=
  (List.range sizes.length).foldl (fun rows i =>
    let row := data.foldl (fun row p =>
      match p.2.get? i with
      | some v => aset row p.1 (JVal.num v)
      | none => row) [("size", JVal.str ((sizes.get? i).getD ""))]
    if 1 < row.length then rows ++ [row] else rows) []

/-- One table segment between consecutive size rows: none models the
continue of the source loop. -/
def parseSegment (lines : List (List Char)) (startIdx endIdx : Nat) :
    Option OTable :=
  let sizeLine := (lines.get? startIdx).getD []
  let sizes := extractSizes sizeLine
  if sizes.length < 2 then none
  else
    let relevantLines :=
      ((lines.enum.filter
          (fun p => decide (startIdx - 3 ≤ p.1 ∧ p.1 < startIdx))).map Prod.snd) ++
      ((lines.enum.filter
          (fun p => decide (startIdx + 1 ≤ p.1 ∧ p.1 < endIdx))).map Prod.snd)
    let data := relevantLines.foldl (mtLineStep sizes.length) []
    if data.isEmpty then none
    else
      let headers := data.map Prod.fst
      let rows := buildSizeRows sizes data
      if 2 ≤ rows.length then
        let allMeasurements := lowerL (String.intercalate " " headers).data
        let isBottom :=
          (["pants", "hip", "thigh", "leg", "inseam", "waist"].any
            (fun k => hasInfix k.data allMeasurements)) &&
          !(["shoulder", "sleeve", "chest"].any
            (fun k => hasInfix k.data allMeasurements))
        some ⟨headers, rows, some (if isBottom then "bottom" else "top")⟩
      else none

/-- Segment bounds: each size-row index paired with its successor, the
last paired with the line count. -/
def segmentsOf : List Nat → Nat → List (Nat × Nat)
  | [], _ => []
  | i :: rest, total => (i, (rest.head?).getD total) :: segmentsOf rest total

/-- One segment folded onto the table list: accepted segments append. -/
def mtTableStep (lines : List (List Char)) (tables : List OTable)
    (seg : Nat × Nat) : List OTable :=
  match parseSegment lines seg.1 seg.2 with
  | some tb => tables ++ [tb]
  | none => tables

/-- parseMultipleTables from ocrParser.js. -/
def parseMultipleTables (text : List Char) : List OTable :=
  let lines := toLines text
  let idxs := sizeRowIndices lines
  (segmentsOf idxs lines.length).foldl (mtTableStep lines) []

end RepMate

namespace RepMate

/-! ## parseColumnGroupedFormat from ocrParser.js -/

/-- The tail of the anchored size-label pattern: optional whitespace, an
optional opening parenthesis, a digit run, an optional closing
parenthesis, then the end of the line. -/
def cgRest (r : List Char) : Bool :=
  let r1 := r.dropWhile jsWsChar
  let r2 := match r1 with
    | c :: t => if c == '（' || c == '(' then t else r1
    | [] => r1
  let r3 := r2.dropWhile Char.isDigit
  let r4 := match r3 with
    | c :: t => if c == ')' || c == '）' then t else r3
    | [] => r3
  r4.isEmpty

/-- The anchored size-label match of the column-grouped format, with the
digit one as a final alternative; the payload is the uppercased label. -/
def cgSizeMatch (line : List Char) : Option String :=
  (letterSizeAlts ++ [['1']]).findSome? (fun a =>
    if ciPrefix a line && cgRest (line.drop a.length) then
      some (upperS (line.take a.length))
    else none)

/-- The measurement keyword map of the column-grouped format. -/
def cgKeywords : List (String × String) :=
  [("front length", "length"), ("length", "length"), ("chest", "chest"),
   ("bust", "chest"), ("shoulder", "shoulder"), ("sleeve", "sleeve")]

/-- The line-scanning state of the column-grouped format. -/
structure CGState where
  sizes : List String
  current : Option String
  collecting : List ℚ
  data : List (String × List ℚ)

/-- One line of the column-grouped scan: record a size label, start a
new measurement saving the previous collection, or collect numbers. -/
def cgStep (st : CGState) (line : List Char) : CGState :=
  match cgSizeMatch line with
  | some sz0 =>
    let sz := if sz0 = "1" then "M" else sz0
    { st with sizes := if sz ∈ st.sizes then st.sizes else st.sizes ++ [sz] }
  | none =>
    match findKeyword cgKeywords line with
    | some name =>
      let data2 := match st.current with
        | some cm =>
          if st.collecting.isEmpty then st.data else aset st.data cm st.collecting
        | none => st.data
      { sizes := st.sizes, current := some name,
        collecting := gscan numsNoB23M none line, data := data2 }
    | none =>
      match st.current with
      | some _ => { st with collecting := st.collecting ++ gscan numsNoB23M none line }
      | none => st

/-- parseColumnGroupedFormat from ocrParser.js. -/
def parseColumnGroupedFormat (text : List Char) : PResult :=
  let lines := toLines text
  let st := lines.foldl cgStep ⟨[], none, [], []⟩
  let data := match st.current with
    | some cm =>
      if st.collecting.isEmpty then st.data else aset st.data cm st.collecting
    | none => st.data
  if 2 ≤ st.sizes.length ∧ data ≠ [] then
    let headers := data.map Prod.fst
    let sorted :=
      sortBy (fun a b => decide (jsIndexOf SIZE_ORDER a ≤ jsIndexOf SIZE_ORDER b))
        st.sizes
    let rows := buildSizeRows sorted data
    if 2 ≤ rows.length then ⟨headers, rows⟩ else ⟨[], []⟩
  else ⟨[], []⟩

/-! ## parseOCRSpecificFormat from ocrParser.js -/

/-- The exact size-label match: a letter alternative filling the line. -/
def exactSizeMatch (line : List Char) : Option String :=
  letterSizeAlts.findSome? (fun a =>
    if ciPrefix a line && line.length == a.length then some (upperS line) else none)

/-- The measurement names of the OCR-specific format. -/
def ocrMeasurements : List String := ["shoulder", "chest", "length"]

/-- The size order of the OCR-specific format. -/
def ocrSizeOrder : List String := ["S", "M", "L", "XL"]

/-- The line-scanning state of the OCR-specific format. -/
structure OSState where
  allNumbers : List ℚ
  sizePositions : List (String × Nat)
  firstSizeFound : Bool
  mv : List (String × ℚ)
  current : Option String

/-- One line of the OCR-specific scan: a size label records the current
number count; otherwise track the measurement keyword, take the first
number as a pre-size value, and append all numbers. -/
def osStep (st : OSState) (line : List Char) : OSState :=
  match exactSizeMatch line with
  | some sz =>
    { st with sizePositions := aset st.sizePositions sz st.allNumbers.length,
              firstSizeFound := true, current := none }
  | none =>
    let current2 :=
      match ocrMeasurements.find? (fun m => hasInfix m.data (lowerL line)) with
      | some m => some m
      | none => st.current
    let numbers := gscan numsNoB23M none line
    if numbers.isEmpty then { st with current := current2 }
    else
      let mv2 := match current2 with
        | some cm =>
          if !st.firstSizeFound && (aget st.mv cm).isNone then
            aset st.mv cm (numbers.headD 0)
          else st.mv
        | none => st.mv
      { allNumbers := st.allNumbers ++ numbers, sizePositions := st.sizePositions,
        firstSizeFound := st.firstSizeFound, mv := mv2, current := current2 }

/-- parseOCRSpecificFormat from ocrParser.js. -/
def parseOCRSpecificFormat (text : List Char) : PResult :=
  let lines := toLines text
  let st := lines.foldl osStep ⟨[], [], false, [], none⟩
  let rows0 :=
    if 2 ≤ st.mv.length then
      let sRow := ocrMeasurements.foldl (fun row m =>
        match aget st.mv m with
        | some v => aset row m (JVal.num v)
        | none => row) [("size", JVal.str "S")]
      if 1 < sRow.length then [sRow] else []
    else []
  let detected :=
    sortBy (fun a b => decide (jsIndexOf ocrSizeOrder a ≤ jsIndexOf ocrSizeOrder b))
      (st.sizePositions.map Prod.fst)
  let rows1 := (List.range detected.length).foldl (fun rows i =>
    let size := (detected.get? i).getD ""
    let startIdx := (aget st.sizePositions size).getD 0
    let endIdx := match detected.get? (i + 1) with
      | some nxt => (aget st.sizePositions nxt).getD 0
      | none => st.allNumbers.length
    let sizeNumbers := (st.allNumbers.drop startIdx).take (endIdx - startIdx)
    if size = "XL" ∧ 6 ≤ sizeNumbers.length ∧ "L" ∉ detected then
      let cnt := min sizeNumbers.length 6
      let lRow := (List.range cnt).foldl (fun row j =>
        if j % 2 = 0 ∧ j / 2 < 3 then
          aset row ((ocrMeasurements.get? (j / 2)).getD "")
            (JVal.num ((sizeNumbers.get? j).getD 0))
        else row) [("size", JVal.str "L")]
      let xlRow := (List.range cnt).foldl (fun row j =>
        if j % 2 = 1 ∧ j / 2 < 3 then
          aset row ((ocrMeasurements.get? (j / 2)).getD "")
            (JVal.num ((sizeNumbers.get? j).getD 0))
        else row) [("size", JVal.str "XL")]
      rows ++ (if 1 < lRow.length then [lRow] else []) ++
        (if 1 < xlRow.length then [xlRow] else [])
    else if 3 ≤ sizeNumbers.length then
      let row := (List.range (min sizeNumbers.length 3)).foldl (fun row j =>
        aset row ((ocrMeasurements.get? j).getD "")
          (JVal.num ((sizeNumbers.get? j).getD 0))) [("size", JVal.str size)]
      if 1 < row.length then rows ++ [row] else rows
    else rows) rows0
  let sorted :=
    sortBy (fun a b =>
      decide (jsIndexOf ocrSizeOrder (rowSize a) ≤ jsIndexOf ocrSizeOrder (rowSize b)))
      rows1
  ⟨ocrMeasurements, sorted⟩

end RepMate

namespace RepMate

/-! ## parseNumericSizeFormat from ocrParser.js -/

/-- The run of four or more whitespace characters becoming a newline. -/
def reflowWsM (_prev : Option Char) (l : List Char) : Option (List Char × Nat) :=
  let ws := l.takeWhile jsWsChar
  if 4 ≤ ws.length then some (['\n'], ws.length) else none

/-- A keyword, case-insensitively, plus its whitespace run, replaced by
a newline, the keyword, and a space; needWs demands one whitespace. -/
def reflowKwWsM (pat : List Char) (needWs : Bool) (_prev : Option Char)
    (l : List Char) : Option (List Char × Nat) :=
  if ciPrefix pat l then
    let rest := l.drop pat.length
    let ws := rest.takeWhile jsWsChar
    if needWs && ws.isEmpty then none
    else some ('\n' :: (l.take pat.length ++ [' ']), pat.length + ws.length)
  else none

/-- A bare keyword prefixed with a newline, consuming nothing else. -/
def reflowBareM (pat : List Char) (_prev : Option Char) (l : List Char) :
    Option (List Char × Nat) :=
  if ciPrefix pat l then some ('\n' :: l.take pat.length, pat.length) else none

/-- The single-line normalisation of parseNumericSizeFormat: the eight
chained replacements in source order. -/
def nsReflow (l : List Char) : List Char :=
  let l1 := greplace reflowWsM none l
  let l2 := greplace (reflowKwWsM ("size".data) true) none l1
  let l3 := greplace (reflowKwWsM ("length".data) false) none l2
  let l4 := greplace (reflowKwWsM ("shoulder".data) false) none l3
  let l5 := greplace (reflowKwWsM ("chest".data) false) none l4
  let l6 := greplace (reflowKwWsM ("sleeve".data) false) none l5
  let l7 := greplace (reflowKwWsM ("waist".data) false) none l6
  let l8 := greplace (reflowKwWsM ("hip".data) false) none l7
  greplace (reflowBareM ("recommended".data)) none l8

/-- The measurement keyword map of parseNumericSizeFormat. -/
def nsKeywords : List (String × String) :=
  [("chest", "chest"), ("bust", "chest"), ("length", "length"),
   ("pants length", "length"), ("shoulder", "shoulder"), ("sleeve", "sleeve"),
   ("waist", "waist"), ("hip", "hip"), ("leg opening", "legOpening"),
   ("thigh", "thigh"), ("inseam", "inseam")]

/-- The size-line search: the first line containing the word size whose
tail shows two or more EU sizes, or else two or more single digits,
together with its index. -/
def nsFindSizes : List (List Char) → Nat → Option (List String × Nat)
  | [], _ => none
  | line :: rest, i =>
    let attempt :=
      if hasInfix ("size".data) (lowerL line) then
        let idx := (indexOfSub ("size".data) (lowerL line)).getD 0
        let afterSize := line.drop (idx + 4)
        let eu := gscan euSizeM none afterSize
        if 2 ≤ eu.length then some (eu.map String.mk)
        else
          let sd := gscan singleDigitM none afterSize
          if 2 ≤ sd.length then some (sd.map String.mk) else none
      else none
    match attempt with
    | some sizes => some (sizes, i)
    | none => nsFindSizes rest (i + 1)

/-- One measurement line of parseNumericSizeFormat folded into the data:
skip recommended and weight lines, store plausible values under the
found keyword, else under the first free fallback name. -/
def nsLineStep (sizes : List String) (data : List (String × List ℚ))
    (line : List Char) : List (String × List ℚ) :=
  if hasInfix ("recommended".data) (lowerL line) ||
     hasInfix ("weight".data) (lowerL line) then data
  else
    let foundMeasurement := findKeyword nsKeywords line
    let numbers := gscan numsAnyM none line
    if numbers.isEmpty then data
    else
      let values := numbers.filter (fun n => decide (20 ≤ n ∧ n ≤ 200))
      if sizes.length ≤ values.length then
        let measurementValues := values.take sizes.length
        match foundMeasurement with
        | some name => aset data name measurementValues
        | none =>
          if data.isEmpty then data
          else
            match ["sleeve", "chest", "length", "shoulder"].find?
                (fun m => (aget data m).isNone) with
            | some m => aset data m measurementValues
            | none => data
      else data

/-- parseNumericSizeFormat from ocrParser.js; it reapplies the OCR fixes
to its own input before parsing. -/
def parseNumericSizeFormat (text : List Char) : PResult :=
  let fixedText := ocrFix text
  let nl := fixedText.count '\n'
  let normalized := if nl < 2 then nsReflow fixedText else fixedText
  let lines := toLines normalized
  match nsFindSizes lines 0 with
  | none => ⟨[], []⟩
  | some (sizes, sizeLineIdx) =>
    let data := (lines.enum.filter (fun p => p.1 != sizeLineIdx)).foldl
      (fun d p => nsLineStep sizes d p.2) []
    if data.isEmpty then ⟨[], []⟩
    else
      let headers := data.map Prod.fst
      let rows := buildSizeRows sizes data
      if 2 ≤ rows.length then ⟨headers, rows⟩ else ⟨[], []⟩

end RepMate

namespace RepMate

/-! ## parseRowBasedTable from ocrParser.js -/

/-- The header keyword alternatives of the row-based strategy. -/
def rbAlts : List (List Char) :=
  (["size", "chest", "length", "shoulder", "sleeve", "waist", "hip", "hem",
    "thigh"]).map String.data

/-- The header keyword matcher: a boundary, a keyword alternative, then
an optional parenthesised group; the payload is the keyword text. -/
def rbKwM (prev : Option Char) (l : List Char) : Option (List Char × Nat) :=
  if noWordBefore prev then
    rbAlts.findSome? (fun a =>
      if ciPrefix a l then
        let rest := l.drop a.length
        let ws := rest.takeWhile jsWsChar
        match rest.drop ws.length with
        | '(' :: r3 =>
          let inner := r3.takeWhile (fun c => c != ')')
          match r3.drop inner.length with
          | ')' :: _ =>
            some (l.take a.length, a.length + ws.length + 1 + inner.length + 1)
          | _ => some (l.take a.length, a.length)
        | _ => some (l.take a.length, a.length)
      else none)
  else none

/-- The header search: the first line with two or more keyword matches
fixes the headers, capitalised and with the size column dropped. -/
def rbFindHeader : List (List Char) → List String
  | [] => []
  | line :: rest =>
    let ms := gscan rbKwM none line
    if 2 ≤ ms.length then
      (ms.map capFirstLower).filter (fun h => strLower h != "size")
    else rbFindHeader rest

/-- The skip alternatives of the row pass, with boundaries. -/
def rbSkipAlts : List (List Char) :=
  (["size", "shoulder", "chest", "length", "sleeve", "waist", "hip"]).map
    String.data

/-- The header-like-line test of the row pass. -/
def rbSkipTest (line : List Char) : Bool :=
  !(gscan (altB rbSkipAlts) none line).isEmpty

/-- The test for a line starting with a size label and then a digit,
after any non-word prefix. -/
def startsSizeNum (line : List Char) : Bool :=
  let nw := line.takeWhile (fun c => !isWordChar c)
  let r := line.drop nw.length
  letterSizeAlts.any (fun a =>
    ciPrefix a r &&
      (match ((r.drop a.length).dropWhile jsWsChar).head? with
       | some c => c.isDigit
       | none => false))

/-- The row-start match: any non-word prefix, a size alternative, and a
lookahead of whitespace, a digit, or the end; the payload is the
uppercased label and the consumed length. -/
def rowStartMatch (line : List Char) : Option (String × Nat) :=
  let nw := line.takeWhile (fun c => !isWordChar c)
  let r := line.drop nw.length
  letterSizeAlts.findSome? (fun a =>
    if ciPrefix a r then
      match (r.drop a.length).head? with
      | none => some (upperS (r.take a.length), nw.length + a.length)
      | some c =>
        if jsWsChar c || c.isDigit then
          some (upperS (r.take a.length), nw.length + a.length)
        else none
    else none)

/-- One line of the row pass folded into the rows. -/
def rbRowStep (headers : List String) (rows : List Obj) (line : List Char) :
    List Obj :=
  if rbSkipTest line && !startsSizeNum line then rows
  else
    match rowStartMatch line with
    | none => rows
    | some (size, k) =>
      let numbers := gscan numsNoB23M none (line.drop k)
      if numbers.isEmpty then rows
      else if rows.any (fun r => rowSize r == size) then rows
      else
        let keys :=
          if headers.isEmpty then ["shoulder", "chest", "length", "sleeve"]
          else headers
        let rowData := numbers.enum.foldl (fun row p =>
          if p.1 < keys.length then
            let hk := (keys.get? p.1).getD ""
            let key := match getMeasurementKey hk with
              | some k2 => k2
              | none => strLower hk
            aset row key (JVal.num p.2)
          else row) [("size", JVal.str size)]
        rows ++ [rowData]

/-- parseRowBasedTable from ocrParser.js. -/
def parseRowBasedTable (text : List Char) : PResult :=
  let lines := toLines text
  let headers := rbFindHeader lines
  let rows := lines.foldl (rbRowStep headers) []
  ⟨headers, rows⟩

/-! ## parseByPosition from ocrParser.js -/

/-- The size-then-numbers match at the start of a line: a size label,
whitespace, then at least two digits; the payload is the upper label. -/
def bpSizeNum (line : List Char) : Option String :=
  letterSizeAlts.findSome? (fun a =>
    if ciPrefix a line then
      match (line.drop a.length).dropWhile jsWsChar with
      | d1 :: d2 :: _ =>
        if d1.isDigit && d2.isDigit then some (upperS (line.take a.length))
        else none
      | _ => none
    else none)

/-- Removal of a leading size label and whitespace from a line. -/
def bpStrip (line : List Char) : List Char :=
  match letterSizeAlts.findSome?
      (fun a => if ciPrefix a line then some a.length else none) with
  | some k => (line.drop k).dropWhile jsWsChar
  | none => line

/-- The skip alternatives of the number-only branch, with boundaries. -/
def bpSkipAlts : List (List Char) :=
  (["size", "shoulder", "chest", "length", "cm", "tips", "error"]).map
    String.data

/-- The skip test of the number-only branch. -/
def bpSkipTest (line : List Char) : Bool :=
  !(gscan (altB bpSkipAlts) none line).isEmpty

/-- The line-scanning state of parseByPosition. -/
structure BPState where
  sizes : List String
  mrows : List (Option String × List ℚ)

/-- One line of the position pass: a standalone label, a label with
numbers, or a number-only measurement line. -/
def bpStep (st : BPState) (line : List Char) : BPState :=
  match exactSizeMatch line with
  | some sz =>
    { st with sizes := if sz ∈ st.sizes then st.sizes else st.sizes ++ [sz] }
  | none =>
    match bpSizeNum line with
    | some sz =>
      let sizes2 := if sz ∈ st.sizes then st.sizes else st.sizes ++ [sz]
      let numbers := gscan numsNoB23M none (bpStrip line)
      if 2 ≤ numbers.length then
        { sizes := sizes2, mrows := st.mrows ++ [(some sz, numbers)] }
      else { st with sizes := sizes2 }
    | none =>
      let numbers := gscan numsB23M none line
      if 2 ≤ numbers.length && !bpSkipTest line then
        { st with mrows := st.mrows ++ [(none, numbers)] }
      else st

/-- A three-measurement row from a label and a number list. -/
def bpRow3 (sz : String) (numbers : List ℚ) : Obj :=
  numbers.enum.foldl (fun row p =>
    if p.1 < 3 then
      aset row ((["shoulder", "chest", "length"].get? p.1).getD "")
        (JVal.num p.2)
    else row) [("size", JVal.str sz)]

/-- parseByPosition from ocrParser.js; the labelled branch falls through
to the positional branch when it yields fewer than two rows. -/
def parseByPosition (text : List Char) : PResult :=
  let lines := toLines text
  let st := lines.foldl bpStep ⟨[], []⟩
  let branch1 :=
    if st.mrows ≠ [] ∧ st.mrows.any (fun p => p.1.isSome) then
      let rows := st.mrows.foldl (fun rows p =>
        match p.1 with
        | some sz =>
          if rows.any (fun r => rowSize r == sz) then rows
          else rows ++ [bpRow3 sz p.2]
        | none => rows) []
      let sorted :=
        sortBy (fun a b =>
          decide (jsIndexOf SIZE_ORDER (rowSize a) ≤ jsIndexOf SIZE_ORDER (rowSize b)))
          rows
      if 2 ≤ sorted.length then
        some (⟨["shoulder", "chest", "length"], sorted⟩ : PResult)
      else none
    else none
  match branch1 with
  | some r => r
  | none =>
    if 2 ≤ st.sizes.length ∧ 2 ≤ st.mrows.length then
      let unmatched := st.mrows.filter (fun p => p.1.isNone)
      let rows := (List.range (min st.sizes.length unmatched.length)).foldl
        (fun rows i =>
          rows ++ [bpRow3 ((st.sizes.get? i).getD "")
            (((unmatched.get? i).getD (none, [])).2)]) []
      if 2 ≤ rows.length then ⟨["shoulder", "chest", "length"], rows⟩
      else ⟨[], []⟩
    else ⟨[], []⟩

end RepMate

namespace RepMate

/-! ## parseInlineFormat from ocrParser.js -/

/-- The measurement keywords of the inline format, with the bust and
front aliases mapped at lookup. -/
def inlineKeywords : List (String × String) :=
  [("shoulder", "shoulder"), ("chest", "chest"), ("length", "length"),
   ("sleeve", "sleeve"), ("waist", "waist"), ("hip", "hip"),
   ("thigh", "thigh"), ("bust", "chest"), ("front", "length"),
   ("hem", "hem")]

/-- The size-value pair matcher: a boundary, a size alternative, one or
more whitespace characters, then a bounded two-or-three digit number;
the payload is the uppercased label with the value. -/
def inlinePairM (prev : Option Char) (l : List Char) :
    Option ((String × ℚ) × Nat) :=
  if noWordBefore prev then
    letterSizeAlts.findSome? (fun a =>
      if ciPrefix a l then
        let rest := l.drop a.length
        let ws := rest.takeWhile jsWsChar
        if ws.isEmpty then none
        else
          match numTailB (rest.drop ws.length) with
          | some (q, klen) =>
            some ((upperS (l.take a.length), q), a.length + ws.length + klen)
          | none => none
      else none)
  else none

/-- The line-scanning state of the inline format. -/
structure ILState where
  data : List (String × List (String × ℚ))
  allSizes : List String

/-- One line of the inline scan: with a keyword present, collect the
size-value pairs, record every size seen, and store the pairs when at
least two sizes appeared on the line. -/
def ilStep (st : ILState) (line : List Char) : ILState :=
  match findKeyword inlineKeywords line with
  | none => st
  | some found =>
    let pairs := gscan inlinePairM none line
    let sizeValues := pairs.foldl (fun sv p => aset sv p.1 p.2) []
    let allSizes2 := pairs.foldl
      (fun acc p => if p.1 ∈ acc then acc else acc ++ [p.1]) st.allSizes
    let data2 :=
      if 2 ≤ sizeValues.length then aset st.data found sizeValues else st.data
    { data := data2, allSizes := allSizes2 }

/-- Index in SIZE_ORDER with misses sent to the 999 sentinel. -/
def idx999 (s : String) : Int :=
  match idxOfAux s SIZE_ORDER with
  | some i => (i : Int)
  | none => 999

/-- parseInlineFormat from ocrParser.js. -/
def parseInlineFormat (text : List Char) : PResult :=
  let lines := toLines text
  let st := lines.foldl ilStep ⟨[], []⟩
  if st.data ≠ [] ∧ 2 ≤ st.allSizes.length then
    let sorted := sortBy (fun a b => decide (idx999 a ≤ idx999 b)) st.allSizes
    let headers := st.data.map Prod.fst
    let rows := sorted.foldl (fun rows sz =>
      let row := st.data.foldl (fun row p =>
        match aget p.2 sz with
        | some v => aset row p.1 (JVal.num v)
        | none => row) [("size", JVal.str sz)]
      if 1 < row.length then rows ++ [row] else rows) []
    if 2 ≤ rows.length then ⟨headers, rows⟩ else ⟨[], []⟩
  else ⟨[], []⟩

/-! ## parseColumnBasedTable from ocrParser.js -/

/-- The first line showing two or more letter-size tokens, with its
index and the deduplicated uppercased sizes. -/
def cbFirstSizeRow : List (List Char) → Nat → Option (Nat × List String)
  | [], _ => none
  | line :: rest, i =>
    let ms := gscan letterSizeB none line
    if 2 ≤ ms.length then some (i, dedupL (ms.map upperS))
    else cbFirstSizeRow rest (i + 1)

/-- The measurement keywords of the column-based and vertical formats. -/
def cbKeywordsL : List String :=
  ["shoulder", "chest", "length", "sleeve", "waist", "hip", "thigh", "bust",
   "front", "hem"]

/-- The alias mapping of the column-based keywords. -/
def cbMapName (k : String) : String :=
  if k = "bust" then "chest" else if k = "front" then "length" else k

/-- The collection state of the column-based format. -/
structure CBState where
  numberRows : List (List ℚ)
  names : List String

/-- One line of the column-based scan: a line with at least as many
bounded numbers as sizes contributes a value row and a name. -/
def cbStep (sizes : List String) (st : CBState) (line : List Char) : CBState :=
  let measurementName :=
    (cbKeywordsL.find? (fun k => hasInfix k.data (lowerL line))).map cbMapName
  let numericValues := gscan numsB23M none line
  if sizes.length ≤ numericValues.length then
    let nr := st.numberRows ++ [numericValues.take sizes.length]
    let nm := match measurementName with
      | some n => n
      | none => "measurement" ++ toString nr.length
    { numberRows := nr, names := st.names ++ [nm] }
  else if 2 ≤ numericValues.length ∧ numericValues.length = sizes.length then
    let nr := st.numberRows ++ [numericValues]
    let nm := match measurementName with
      | some n => n
      | none => "measurement" ++ toString nr.length
    { numberRows := nr, names := st.names ++ [nm] }
  else st

/-- parseColumnBasedTable from ocrParser.js; the inline format is tried
first, as in the source. -/
def parseColumnBasedTable (text : List Char) : PResult :=
  let inlineResult := parseInlineFormat text
  if inlineResult.rows ≠ [] then inlineResult
  else
    let lines := toLines text
    match cbFirstSizeRow lines 0 with
    | none => ⟨[], []⟩
    | some (sizeRowIndex, sizes) =>
      if sizes.length < 2 then ⟨[], []⟩
      else
        let st := (lines.enum.filter (fun p => p.1 != sizeRowIndex)).foldl
          (fun s p => cbStep sizes s p.2) ⟨[], []⟩
        if 1 ≤ st.numberRows.length then
          let defaultNames := ["shoulder", "chest", "length", "sleeve"]
          let headers := st.names.enum.map (fun p =>
            if ("measurement".data).isPrefixOf p.2.data then
              (defaultNames.get? p.1).getD p.2
            else p.2)
          let rows := (List.range sizes.length).foldl (fun rows sizeIdx =>
            let row := (List.range st.numberRows.length).foldl (fun row measIdx =>
              let mn := (headers.get? measIdx).getD
                ("measurement" ++ toString (measIdx + 1))
              match (st.numberRows.get? measIdx).bind (fun nr => nr.get? sizeIdx) with
              | some v => aset row mn (JVal.num v)
              | none => row) [("size", JVal.str ((sizes.get? sizeIdx).getD ""))]
            if 1 < row.length then rows ++ [row] else rows) []
          if 2 ≤ rows.length then ⟨headers, rows⟩ else ⟨[], []⟩
        else ⟨[], []⟩

/-! ## parseVerticalFormat from ocrParser.js -/

/-- The measurement keyword map of the vertical format, in entry order. -/
def vKeywords : List (String × String) :=
  [("shoulder", "shoulder"), ("chest", "chest"), ("length", "length"),
   ("sleeve", "sleeve"), ("waist", "waist"), ("hip", "hip"),
   ("thigh", "thigh"), ("inseam", "inseam"), ("hem", "hem"),
   ("bust", "chest"), ("front", "length")]

/-- parseVerticalFormat from ocrParser.js, with its three passes. -/
def parseVerticalFormat (text : List Char) : PResult :=
  let lines := toLines text
  let lowerText := lowerL text
  let kwPos := vKeywords.foldl (fun acc p =>
    match indexOfSub p.1.data lowerText with
    | some pos => acc ++ [(p.1, p.2, pos)]
    | none => acc) []
  let sortedKw := sortBy (fun a b => decide (a.2.2 ≤ b.2.2)) kwPos
  let fm0 := sortedKw.foldl
    (fun acc p => if p.2.1 ∈ acc then acc else acc ++ [p.2.1]) []
  let foundMeasurements :=
    if fm0.isEmpty then ["shoulder", "chest", "length"] else fm0
  let p1 := lines.foldl (fun (st : List String × List Obj) line =>
    match (gscan letterSizeB none line).head? with
    | none => st
    | some t =>
      let size := upperS t
      let afterSize := match indexOfSub t line with
        | some p => line.drop (p + t.length)
        | none => []
      let numbers := gscan numsB23M none afterSize
      if numbers ≠ [] ∧ size ∉ st.1 then
        let row := numbers.enum.foldl (fun row q =>
          if q.1 < foundMeasurements.length then
            aset row ((foundMeasurements.get? q.1).getD "") (JVal.num q.2)
          else row) [("size", JVal.str size)]
        (st.1 ++ [size], st.2 ++ [row])
      else st) ([], [])
  let rows1 := p1.2
  let rows2 :=
    if rows1 ≠ [] then
      let fsv := lines.foldl (fun fsv line =>
        if !(gscan letterSizeB none line).isEmpty then fsv
        else
          match vKeywords.find? (fun p => hasInfix p.1.data (lowerL line)) with
          | some p =>
            match (gscan numsB23M none line).head? with
            | some n => aset fsv p.2 n
            | none => fsv
          | none => fsv) []
      if fsv ≠ [] then
        if rows1.any (fun r => rowSize r == "S") then rows1
        else
          (fsv.foldl (fun row p => aset row p.1 (JVal.num p.2))
            [("size", JVal.str "S")]) :: rows1
      else rows1
    else rows1
  let rows3 :=
    if rows2 = [] then
      let allNumbers := lines.foldl (fun acc line => acc ++ gscan numsB23M none line) []
      let allSizes := dedupL ((gscan letterSizeB none text).map upperS)
      if allSizes ≠ [] ∧ allNumbers ≠ [] then
        let numPerSize := allNumbers.length / allSizes.length
        if 0 < numPerSize then
          allSizes.enum.foldl (fun rows p =>
            let row := (List.range (min numPerSize foundMeasurements.length)).foldl
              (fun row j =>
                match allNumbers.get? (p.1 * numPerSize + j) with
                | some v => aset row ((foundMeasurements.get? j).getD "") (JVal.num v)
                | none => row) [("size", JVal.str p.2)]
            rows ++ [row]) []
        else []
      else []
    else rows2
  ⟨foundMeasurements, rows3⟩

/-! ## parseAlternativeFormat from ocrParser.js -/

/-- The value character class of the colon pattern. -/
def vcOK (c : Char) : Bool := c.isDigit || jsWsChar c || c == '.'

/-- Fuel-indexed whitespace splitting into nonempty tokens. -/
def wsTokensF : Nat → List Char → List (List Char)
  | 0, _ => []
  | _ + 1, [] => []
  | fuel + 1, c :: cs =>
    if jsWsChar c then wsTokensF fuel cs
    else
      let tok := (c :: cs).takeWhile (fun x => !jsWsChar x)
      tok :: wsTokensF fuel ((c :: cs).drop tok.length)

/-- Whitespace splitting, with fuel instantiated to the length. -/
def wsTokensL (l : List Char) : List (List Char) :=
  wsTokensF l.length l

/-- The JavaScript parseFloat on a token of digits and points: none is
the NaN the source filters out. -/
def jsParseFloatTok (t : List Char) : Option ℚ :=
  match t with
  | [] => none
  | '.' :: rest =>
    let ds := rest.takeWhile Char.isDigit
    if ds.isEmpty then none else some (fracVal ds)
  | c :: _ =>
    if c.isDigit then
      let ds := t.takeWhile Char.isDigit
      match t.drop ds.length with
      | '.' :: r2 =>
        let fs := r2.takeWhile Char.isDigit
        some ((digitsToNat ds : ℚ) + fracVal fs)
      | _ => some ((digitsToNat ds : ℚ))
    else none

/-- The label-colon matcher: one word, optionally a second word after
whitespace, optional whitespace, a half- or full-width colon, then a
nonempty run of digit, whitespace, and point characters; the payload is
the trimmed label with the parsed values. -/
def labelColonM (_prev : Option Char) (l : List Char) :
    Option ((String × List ℚ) × Nat) :=
  match l.head? with
  | none => none
  | some c =>
    if isWordChar c then
      let w1 := l.takeWhile isWordChar
      let r1 := l.drop w1.length
      let attemptA :=
        let ws1 := r1.takeWhile jsWsChar
        if ws1.isEmpty then none
        else
          let r2 := r1.drop ws1.length
          let w2 := r2.takeWhile isWordChar
          if w2.isEmpty then none
          else
            let r3 := r2.drop w2.length
            let ws2 := r3.takeWhile jsWsChar
            match (r3.drop ws2.length).head? with
            | some ch =>
              if ch == ':' || ch == '：' then
                some (w1 ++ ws1 ++ w2,
                  w1.length + ws1.length + w2.length + ws2.length + 1)
              else none
            | none => none
      let attemptB :=
        let ws := r1.takeWhile jsWsChar
        match (r1.drop ws.length).head? with
        | some ch =>
          if ch == ':' || ch == '：' then some (w1, w1.length + ws.length + 1)
          else none
        | none => none
      match (match attemptA with | some x => some x | none => attemptB) with
      | some (labelChars, k1) =>
        let valueChars := (l.drop k1).takeWhile vcOK
        if valueChars.isEmpty then none
        else
          some ((String.mk (trimL labelChars),
            (wsTokensL valueChars).filterMap jsParseFloatTok),
            k1 + valueChars.length)
      | none => none
    else none

/-- The size-token matcher of the alternative format: the letter sizes
or exactly two digits, with boundaries, uppercased. -/
def altSizeM (prev : Option Char) (l : List Char) : Option (String × Nat) :=
  match altB letterSizeAlts prev l with
  | some (t, k) => some (upperS t, k)
  | none =>
    if noWordBefore prev then
      match l with
      | d1 :: d2 :: _ =>
        if d1.isDigit && d2.isDigit && noWordAt l 2 then
          some (String.mk [d1, d2], 2)
        else none
      | _ => none
    else none

/-- parseAlternativeFormat from ocrParser.js: the column-based table
first, then the colon format, then the vertical format; the colon rows
are pushed without any key-count guard, and a label of size overwrites
the size label with a number. -/
def parseAlternativeFormat (text : List Char) : PResult :=
  let columnResult := parseColumnBasedTable text
  if columnResult.rows ≠ [] then columnResult
  else
    let scanned := gscan labelColonM none text
    let st := scanned.foldl (fun (st : List (String × List ℚ) × List String) p =>
      if p.2.isEmpty then st
      else
        let key := match getMeasurementKey p.1 with
          | some k => k
          | none => strLower p.1
        (aset st.1 key p.2, if p.1 ∈ st.2 then st.2 else st.2 ++ [p.1]))
      ([], [])
    let measurements := st.1
    let headers := st.2
    if measurements.isEmpty then
      let verticalResult := parseVerticalFormat text
      if verticalResult.rows ≠ [] then verticalResult
      else ⟨headers, []⟩
    else
      let maxValues := (measurements.map (fun p => p.2.length)).foldl max 0
      let uniqueSizes := dedupL (gscan altSizeM none text)
      let rows := (List.range maxValues).foldl (fun rows i =>
        let sz := match uniqueSizes.get? i with
          | some s => s
          | none => "Size" ++ toString (i + 1)
        let row := measurements.foldl (fun row p =>
          match p.2.get? i with
          | some v => aset row p.1 (JVal.num v)
          | none => row) [("size", JVal.str sz)]
        rows ++ [row]) []
      ⟨headers, rows⟩

end RepMate

namespace RepMate

/-! ## parseSizeChart from ocrParser.js -/

/-- The fallback results list of parseSizeChart, in strategy priority
order with the participation thresholds of the source: two rows for the
column-grouped and numeric-size strategies, three for the OCR-specific
strategy, and one for the row-based, alternative, and positional
strategies. -/
def fallbackResults (t : List Char) : List PResult :=
  let columnGroupedResult := parseColumnGroupedFormat t
  let ocrSpecificResult := parseOCRSpecificFormat t
  let numericSizeResult := parseNumericSizeFormat t
  let rowBasedResult := parseRowBasedTable t
  let altResult := parseAlternativeFormat t
  let positionalResult := parseByPosition t
  (if 2 ≤ columnGroupedResult.rows.length then [columnGroupedResult] else []) ++
  (if 3 ≤ ocrSpecificResult.rows.length then [ocrSpecificResult] else []) ++
  (if 2 ≤ numericSizeResult.rows.length then [numericSizeResult] else []) ++
  (if 0 < rowBasedResult.rows.length then [rowBasedResult] else []) ++
  (if 0 < altResult.rows.length then [altResult] else []) ++
  (if 0 < positionalResult.rows.length then [positionalResult] else [])

/-- The completeness score of a result: row count times the key count
of the first row. -/
def scoreOf (r : PResult) : Nat :=
  r.rows.length * (r.rows.head?.getD []).length

/-- The best-candidate fold of parseSizeChart: strictly better scores
replace the candidate, so ties keep the earlier strategy, and the empty
result stands when nothing scores above zero. -/
def pickBest (results : List PResult) : PResult :=
  (results.foldl (fun acc r =>
    if acc.2 < scoreOf r then (r, scoreOf r) else acc)
    ((⟨[], []⟩ : PResult), 0)).1

/-- The header union of the multi-table path: every header of every
table added to an insertion-ordered set. -/
def allHeadersOf (tables : List OTable) : List String :=
  tables.foldl (fun acc tb =>
    tb.headers.foldl (fun acc2 h => if h ∈ acc2 then acc2 else acc2 ++ [h]) acc) []

/-- parseSizeChart from ocrParser.js; none models the null input and the
empty string is the other falsy input of the source guard. -/
def parseSizeChart (rawText : Option String) : SizeChartOut :=
  match rawText with
  | none => ⟨[], [], [], "", ""⟩
  | some s =>
    if s = "" then ⟨[], [], [], "", ""⟩
    else
      let fixedText := ocrFix s.data
      let translatedText := translateChineseL fixedText
      let multiTables := parseMultipleTables translatedText
      if multiTables ≠ [] then
        ⟨allHeadersOf multiTables,
         ((multiTables.head?).map OTable.rows).getD [],
         multiTables, s, String.mk translatedText⟩
      else
        let best := pickBest (fallbackResults translatedText)
        ⟨best.headers, best.rows,
         if best.rows ≠ [] then [⟨best.headers, best.rows, none⟩] else [],
         s, String.mk translatedText⟩

/-- The detector as the specification words it: a measurement keyword
and then either a unit-qualified number or a size token, with no
allowance for bare table numbers.  This definition follows the claim
text, not the source, for comparison with containsSizeGuide. -/
def specContainsSizeGuide (text : Option String) : Bool :=
  match text with
  | none => false
  | some s =>
    if s = "" then false
    else testKeywords s.data && (testMeasurementWithUnit s.data || testSizeLabels s.data)

end RepMate

namespace RepMate

/-! ## Theorems -/

theorem aget_nil {α : Type} (k : String) : aget ([] : List (String × α)) k = none := rfl

theorem aget_cons {α : Type} (p : String × α) (l : List (String × α)) (k : String) :
    aget (p :: l) k = if p.1 == k then some p.2 else aget l k := by
  simp only [aget, List.find?]
  cases h : (p.1 == k) <;> simp [h]

theorem aset_eq_append {α : Type} (l : List (String × α)) (k : String) (v : α)
    (h : aget l k = none) : aset l k v = l ++ [(k, v)] := by
  induction l with
  | nil => rfl
  | cons p rest ih =>
    rw [aget_cons] at h
    by_cases hk : (p.1 == k) = true
    · simp [hk] at h
    · simp only [aset]
      rw [if_neg hk, ih]
      · simp
      · simpa [hk] using h

theorem aget_append_right {α : Type} (l1 l2 : List (String × α)) (k : String)
    (h : aget l1 k = none) : aget (l1 ++ l2) k = aget l2 k := by
  induction l1 with
  | nil => simp
  | cons p rest ih =>
    rw [aget_cons] at h
    by_cases hk : (p.1 == k) = true
    · simp [hk] at h
    · rw [List.cons_append, aget_cons, if_neg hk]
      exact ih (by simpa [hk] using h)

/-- The measurement loop of calculateSizeFit, in closed form over an
arbitrary ease-entry list with distinct keys not yet in the state. -/
theorem foldl_sizeFitStep_closed (sizeData : SRow) (user : List (String × ℚ)) :
    ∀ (l : List (String × Ease)) (st : FitState),
    (∀ p ∈ l, contribCond sizeData user p = true → aget st.details p.1 = none) →
    (l.map Prod.fst).Nodup →
    l.foldl (sizeFitStep sizeData user) st =
      { details := st.details ++ (l.filter (contribCond sizeData user)).map
          (fun p => (p.1, detailOf sizeData user p)),
        notes := st.notes ++ (l.filter (contribCond sizeData user)).flatMap
          (fun p => fitNotes p.1 (detailOf sizeData user p).fit),
        totalScore := st.totalScore + ((l.filter (contribCond sizeData user)).map
          (fun p => (detailOf sizeData user p).score)).sum,
        measurementCount := st.measurementCount +
          (l.filter (contribCond sizeData user)).length,
        garmentBiggerCount := st.garmentBiggerCount +
          (l.filter (contribCond sizeData user)).countP
            (fun p => decide (0 < (detailOf sizeData user p).diff)),
        garmentSmallerCount := st.garmentSmallerCount +
          (l.filter (contribCond sizeData user)).countP
            (fun p => decide ((detailOf sizeData user p).diff < 0)) } := by
  intro l
  induction l with
  | nil => intro st _ _; simp
  | cons p tl ih =>
    intro st hdisj hnd
    rw [List.map_cons, List.nodup_cons] at hnd
    by_cases hc : contribCond sizeData user p = true
    · have hget : aget st.details p.1 = none := hdisj p (by simp) hc
      have hgs : (garmentValueOf sizeData p.1).isSome = true := by
        simp only [contribCond, Bool.and_eq_true] at hc; exact hc.1
      have hus : (userValueOf user p.1).isSome = true := by
        simp only [contribCond, Bool.and_eq_true] at hc; exact hc.2
      obtain ⟨g, hg⟩ := Option.isSome_iff_exists.mp hgs
      obtain ⟨u, hu⟩ := Option.isSome_iff_exists.mp hus
      have hstep : sizeFitStep sizeData user st p =
          { details := st.details ++ [(p.1, detailOf sizeData user p)],
            notes := st.notes ++ fitNotes p.1 (detailOf sizeData user p).fit,
            totalScore := st.totalScore + (detailOf sizeData user p).score,
            measurementCount := st.measurementCount + 1,
            garmentBiggerCount := st.garmentBiggerCount +
              (if 0 < (detailOf sizeData user p).diff then 1 else 0),
            garmentSmallerCount := st.garmentSmallerCount +
              (if (detailOf sizeData user p).diff < 0 then 1 else 0) } := by
        simp only [sizeFitStep, detailOf, hg, hu]
        rw [aset_eq_append _ _ _ hget]
      have hd2 : ∀ q ∈ tl, contribCond sizeData user q = true →
          aget (st.details ++ [(p.1, detailOf sizeData user p)]) q.1 = none := by
        intro q hq hcq
        have hne : (p.1 == q.1) = false := by
          rcases hnd with ⟨hnp, _⟩
          have hmem : q.1 ∈ tl.map Prod.fst := List.mem_map_of_mem _ hq
          by_contra hcontra
          simp only [Bool.not_eq_false, beq_iff_eq] at hcontra
          exact hnp (hcontra ▸ hmem)
        rw [aget_append_right _ _ _ (hdisj q (by simp [hq]) hcq), aget_cons,
          if_neg (by simp [hne]), aget_nil]
      have hrec := ih ⟨st.details ++ [(p.1, detailOf sizeData user p)],
          st.notes ++ fitNotes p.1 (detailOf sizeData user p).fit,
          st.totalScore + (detailOf sizeData user p).score,
          st.measurementCount + 1,
          st.garmentBiggerCount + (if 0 < (detailOf sizeData user p).diff then 1 else 0),
          st.garmentSmallerCount + (if (detailOf sizeData user p).diff < 0 then 1 else 0)⟩
        (fun q hq hcq => hd2 q hq hcq) hnd.2
      rw [List.foldl_cons, hstep, hrec]
      have hfil : (p :: tl).filter (contribCond sizeData user) =
          p :: tl.filter (contribCond sizeData user) := by
        simp [List.filter_cons, hc]
      rw [hfil]
      simp only [List.map_cons, List.flatMap_cons, List.length_cons, List.countP_cons,
        List.sum_cons, FitState.mk.injEq]
      refine ⟨by simp, by simp, by ring, by omega, ?_, ?_⟩
      · by_cases h0 : (0:ℚ) < (detailOf sizeData user p).diff <;> (simp [h0]; try omega)
      · by_cases h0 : (detailOf sizeData user p).diff < (0:ℚ) <;> (simp [h0]; try omega)
    · have hstep : sizeFitStep sizeData user st p = st := by
        simp only [contribCond, Bool.and_eq_true] at hc
        simp only [sizeFitStep]
        cases hg : garmentValueOf sizeData p.1 with
        | none => rfl
        | some g =>
          cases hu : userValueOf user p.1 with
          | none => rfl
          | some u => exact absurd ⟨by simp [hg], by simp [hu]⟩ hc
      rw [List.foldl_cons, hstep, ih _ (fun q hq => hdisj q (by simp [hq])) hnd.2]
      have hfil : (p :: tl).filter (contribCond sizeData user) =
          tl.filter (contribCond sizeData user) := by
        simp [List.filter_cons, hc]
      rw [hfil]

theorem easeConfigFor_keys_nodup (garmentType : String) :
    ((easeConfigFor garmentType).map Prod.fst).Nodup := by
  unfold easeConfigFor
  split
  · decide
  split
  · decide
  · decide

/-- The loop state of calculateSizeFit in closed form. -/
theorem fitStateOf_closed (sizeData : SRow) (user : List (String × ℚ))
    (garmentType : String) :
    fitStateOf sizeData user garmentType =
      { details := (contribOf sizeData user garmentType).map
          (fun p => (p.1, detailOf sizeData user p)),
        notes := (contribOf sizeData user garmentType).flatMap
          (fun p => fitNotes p.1 (detailOf sizeData user p).fit),
        totalScore := ((contribOf sizeData user garmentType).map
          (fun p => (detailOf sizeData user p).score)).sum,
        measurementCount := (contribOf sizeData user garmentType).length,
        garmentBiggerCount := (contribOf sizeData user garmentType).countP
          (fun p => decide (0 < (detailOf sizeData user p).diff)),
        garmentSmallerCount := (contribOf sizeData user garmentType).countP
          (fun p => decide ((detailOf sizeData user p).diff < 0)) } := by
  unfold fitStateOf contribOf
  rw [foldl_sizeFitStep_closed sizeData user _ _
    (fun p _ _ => by rw [aget_nil])
    (easeConfigFor_keys_nodup garmentType)]
  simp

end RepMate

namespace RepMate

theorem aget_map_keyed {α : Type} (f : String × Ease → α) :
    ∀ (l : List (String × Ease)) (k : String) (e : Ease),
    (l.map Prod.fst).Nodup → (k, e) ∈ l →
    aget (l.map (fun p => (p.1, f p))) k = some (f (k, e)) := by
  intro l
  induction l with
  | nil => intro k e _ hmem; simp at hmem
  | cons q tl ih =>
    intro k e hnd hmem
    rw [List.map_cons, List.nodup_cons] at hnd
    rw [List.map_cons, aget_cons]
    by_cases hq : (q.1 == k) = true
    · have hqk : q.1 = k := by simpa using hq
      have hqe : q = (k, e) := by
        rcases List.mem_cons.mp hmem with h | h
        · exact h.symm
        · exact absurd (hqk ▸ List.mem_map_of_mem Prod.fst h) hnd.1
      rw [hqe]
      simp
    · have hmem2 : (k, e) ∈ tl := by
        rcases List.mem_cons.mp hmem with h | h
        · exact absurd (show (q.1 == k) = true by rw [← h]; simp) hq
        · exact h
      rw [if_neg hq]
      exact ih k e hnd.2 hmem2

theorem contribOf_keys_nodup (sizeData : SRow) (user : List (String × ℚ))
    (garmentType : String) :
    ((contribOf sizeData user garmentType).map Prod.fst).Nodup :=
  ((List.filter_sublist _).map Prod.fst).nodup (easeConfigFor_keys_nodup garmentType)

/-- C1: calculateMeasurementFit computes, with diff the garment value
minus the body value, category tight with score max(0, 0.5 minus
(min minus diff) times 0.1) when diff is below min; category right with
score 0.7 plus 0.3 times (diff minus min) over (ideal minus min) when
diff lies between min and ideal; category loose with score 1.0 minus 0.2
times (diff minus ideal) over (max minus ideal) when diff lies between
ideal and max; and category oversized with score max(0.3, 0.8 minus
(diff minus max) times 0.05) when diff exceeds max, for every ease triple
with min below ideal below max. -/
theorem claim_C1 (g b : ℚ) (e : Ease) (h1 : e.min < e.ideal) (h2 : e.ideal < e.max) :
    (g - b < e.min →
      calculateMeasurementFit g b e =
        ⟨max 0 (1/2 - (e.min - (g - b)) * (1/10)), "tight", g - b⟩) ∧
    (e.min ≤ g - b → g - b ≤ e.ideal →
      calculateMeasurementFit g b e =
        ⟨7/10 + 3/10 * ((g - b) - e.min) / (e.ideal - e.min), "right", g - b⟩) ∧
    (e.ideal < g - b → g - b ≤ e.max →
      calculateMeasurementFit g b e =
        ⟨1 - 2/10 * ((g - b) - e.ideal) / (e.max - e.ideal), "loose", g - b⟩) ∧
    (e.max < g - b →
      calculateMeasurementFit g b e =
        ⟨max (3/10) (8/10 - ((g - b) - e.max) * (1/20)), "oversized", g - b⟩) := by
  simp only [calculateMeasurementFit]
  refine ⟨?_, ?_, ?_, ?_⟩
  · intro h
    rw [if_pos h]
  · intro ha hb
    rw [if_neg (by linarith), if_pos ⟨ha, hb⟩, MFit.mk.injEq]
    exact ⟨by ring, rfl, rfl⟩
  · intro ha hb
    rw [if_neg (by linarith), if_neg (by rintro ⟨_, hx⟩; linarith),
      if_pos ⟨ha, hb⟩, MFit.mk.injEq]
    exact ⟨by ring, rfl, rfl⟩
  · intro h
    rw [if_neg (by linarith), if_neg (by rintro ⟨_, hx⟩; linarith),
      if_neg (by rintro ⟨_, hx⟩; linarith)]

/-- Witness for C1 at garment 104, body 98 and the chest ease (4, 8, 16). -/
theorem claim_C1_witness :
    (4:ℚ) < 8 ∧ (8:ℚ) < 16 ∧
      calculateMeasurementFit 104 98 ⟨4, 8, 16⟩ =
        ⟨7/10 + 3/10 * ((104 - 98) - 4) / (8 - 4), "right", 104 - 98⟩ :=
  ⟨by decide, by decide,
    (claim_C1 104 98 ⟨4, 8, 16⟩ (by decide) (by decide)).2.1 (by decide) (by decide)⟩

/-- C2: for chest, waist and hip, the garment value reaching fit scoring
is doubled exactly when the ratio test holds or, failing it, when the
value is below the absolute threshold of the key (70 for chest, 50 for
waist and hip); the doubling happens at most once, the stored detail
shows the adjusted value is what is scored, and a chest of 52 against a
body of 98 is scored as 104. -/
theorem claim_C2 :
    (∀ (key : String) (g u : ℚ), 0 < g → 0 < u →
      key = "chest" ∨ key = "waist" ∨ key = "hip" →
      (halfAdjust key g u = 2 * g ∨ halfAdjust key g u = g) ∧
      (halfAdjust key g u = 2 * g ↔
        (g / u < 7/10 ∨ (¬ g / u < 7/10 ∧
          ((key = "chest" ∧ g < 70) ∨ (key ≠ "chest" ∧ g < 50)))))) ∧
    (∀ (sizeData : SRow) (user : List (String × ℚ)) (garmentType : String)
       (k : String) (e : Ease) (g u : ℚ),
      (k, e) ∈ easeConfigFor garmentType →
      garmentValueOf sizeData k = some g → userValueOf user k = some u →
      aget (calculateSizeFit sizeData user garmentType).details k =
        some ⟨halfAdjust k g u, u,
          (calculateMeasurementFit (halfAdjust k g u) u e).score,
          (calculateMeasurementFit (halfAdjust k g u) u e).fit,
          (calculateMeasurementFit (halfAdjust k g u) u e).diff⟩) ∧
    halfAdjust "chest" 52 98 = 104 ∧
    aget (calculateSizeFit ⟨"S", [("chest", 52)]⟩ [("chest", 98)] "top").details "chest" =
      some ⟨104, 98, 85/100, "right", 6⟩ := by
  refine ⟨?_, ?_, by decide, by decide⟩
  · intro key g u hg hu hk
    have hval : halfAdjust key g u =
        if g / u < 7/10 ∨ (¬ g / u < 7/10 ∧
            ((key = "chest" ∧ g < 70) ∨ (key ≠ "chest" ∧ g < 50))) then g * 2
        else g := by
      rcases hk with hk | hk | hk <;> subst hk <;>
        (by_cases ha : g / u < 7/10
         · simp [halfAdjust, ha]
         · by_cases hb : g < 70
           · by_cases hc : g < 50 <;> simp [halfAdjust, ha, hb, hc]
           · by_cases hc : g < 50 <;> simp [halfAdjust, ha, hb, hc]; try linarith)
    constructor
    · rw [hval]
      split_ifs
      · exact Or.inl (mul_comm g 2)
      · exact Or.inr rfl
    · rw [hval]
      split_ifs with hC
      · exact iff_of_true (mul_comm g 2) hC
      · exact iff_of_false (fun h => by rw [two_mul] at h; linarith) hC
  · intro sizeData user garmentType k e g u hmem hgv huv
    have hcm : (k, e) ∈ contribOf sizeData user garmentType :=
      List.mem_filter.mpr ⟨hmem, by simp [contribCond, hgv, huv]⟩
    show aget (fitStateOf sizeData user garmentType).details k = _
    rw [fitStateOf_closed]
    rw [aget_map_keyed _ _ k e (contribOf_keys_nodup sizeData user garmentType) hcm]
    simp [detailOf, hgv, huv]

/-- Witness for C2 at the chest key with garment 52 and body 98. -/
theorem claim_C2_witness :
    (0:ℚ) < 52 ∧ (0:ℚ) < 98 ∧
      (halfAdjust "chest" 52 98 = 2 * 52 ∨ halfAdjust "chest" 52 98 = 52) :=
  ⟨by decide, by decide,
    ((claim_C2.1 "chest" 52 98 (by decide) (by decide) (Or.inl rfl)).1)⟩

/-- C3: avgScore is the arithmetic mean of the per-measurement fit scores
over exactly the ease-table keys present, after aliasing, on both sides,
zero when no key is shared; the reported score is that average rounded to
two decimals; and the overall category follows the documented thresholds,
with garment-bigger meaning that the count of positive diffs among the
contributing measurements is at least the count of negative diffs. -/
theorem claim_C3 (sizeData : SRow) (user : List (String × ℚ)) (garmentType : String) :
    (avgScoreOf sizeData user garmentType =
      if contribOf sizeData user garmentType = [] then 0
      else ((contribOf sizeData user garmentType).map
          (fun p => (detailOf sizeData user p).score)).sum /
        ((contribOf sizeData user garmentType).length : ℚ)) ∧
    (calculateSizeFit sizeData user garmentType).score =
      jsRound100 (avgScoreOf sizeData user garmentType) ∧
    (calculateSizeFit sizeData user garmentType).fit =
      (let avg := avgScoreOf sizeData user garmentType
       let bigger := (contribOf sizeData user garmentType).countP
         (fun p => decide (0 < (detailOf sizeData user p).diff))
       let smaller := (contribOf sizeData user garmentType).countP
         (fun p => decide ((detailOf sizeData user p).diff < 0))
       if 85/100 ≤ avg then "right"
       else if 7/10 ≤ avg then (if smaller ≤ bigger then "loose" else "tight")
       else if 1/2 ≤ avg then (if smaller ≤ bigger then "oversized" else "tight")
       else if smaller ≤ bigger then "too_big" else "too_small") := by
  refine ⟨?_, rfl, ?_⟩
  · unfold avgScoreOf
    rw [fitStateOf_closed]
    by_cases hnil : contribOf sizeData user garmentType = []
    · simp [hnil]
    · have hpos : 0 < (contribOf sizeData user garmentType).length :=
        List.length_pos.mpr hnil
      simp only [if_neg hnil, if_pos hpos]
  · show overallFit _ _ _ = _
    rw [show (fitStateOf sizeData user garmentType).garmentBiggerCount =
        (contribOf sizeData user garmentType).countP
          (fun p => decide (0 < (detailOf sizeData user p).diff)) by
      rw [fitStateOf_closed]]
    rw [show (fitStateOf sizeData user garmentType).garmentSmallerCount =
        (contribOf sizeData user garmentType).countP
          (fun p => decide ((detailOf sizeData user p).diff < 0)) by
      rw [fitStateOf_closed]]
    rfl

end RepMate

namespace RepMate

/-! ## Generic facts about the stable sort model -/

theorem insertBy_perm {α : Type} (le : α → α → Bool) (x : α) (l : List α) :
    List.Perm (insertBy le x l) (x :: l) := by
  induction l with
  | nil => exact List.Perm.refl _
  | cons y ys ih =>
    simp only [insertBy]
    split
    · exact List.Perm.refl _
    · exact (ih.cons y).trans (List.Perm.swap x y ys)

theorem sortBy_perm {α : Type} (le : α → α → Bool) (l : List α) :
    List.Perm (sortBy le l) l := by
  induction l with
  | nil => exact List.Perm.refl _
  | cons x xs ih => exact (insertBy_perm le x (sortBy le xs)).trans (ih.cons x)

theorem insertBy_pairwise {α : Type} (le : α → α → Bool)
    (htot : ∀ a b, le a b = true ∨ le b a = true)
    (htrans : ∀ a b c, le a b = true → le b c = true → le a c = true)
    (x : α) (l : List α) (hl : l.Pairwise (fun a b => le a b = true)) :
    (insertBy le x l).Pairwise (fun a b => le a b = true) := by
  induction l with
  | nil => simp [insertBy]
  | cons y ys ih =>
    rw [List.pairwise_cons] at hl
    simp only [insertBy]
    split
    · rename_i hxy
      rw [List.pairwise_cons]
      refine ⟨?_, List.Pairwise.cons hl.1 hl.2⟩
      intro z hz
      rcases List.mem_cons.mp hz with h | h
      · exact h ▸ hxy
      · exact htrans x y z hxy (hl.1 z h)
    · rename_i hxy
      have hyx : le y x = true := (htot x y).resolve_left hxy
      rw [List.pairwise_cons]
      refine ⟨?_, ih hl.2⟩
      intro z hz
      have := (insertBy_perm le x ys).mem_iff.mp hz
      rcases List.mem_cons.mp this with h | h
      · exact h ▸ hyx
      · exact hl.1 z h

theorem sortBy_pairwise {α : Type} (le : α → α → Bool)
    (htot : ∀ a b, le a b = true ∨ le b a = true)
    (htrans : ∀ a b c, le a b = true → le b c = true → le a c = true)
    (l : List α) : (sortBy le l).Pairwise (fun a b => le a b = true) := by
  induction l with
  | nil => simp [sortBy]
  | cons x xs ih => exact insertBy_pairwise le htot htrans x (sortBy le xs) ih

theorem insertBy_congr {α : Type} (le1 le2 : α → α → Bool) (x : α) (l : List α)
    (h : ∀ b ∈ l, le1 x b = le2 x b) : insertBy le1 x l = insertBy le2 x l := by
  induction l with
  | nil => rfl
  | cons y ys ih =>
    simp only [insertBy]
    rw [h y (by simp)]
    split
    · rfl
    · rw [ih (fun b hb => h b (by simp [hb]))]

theorem sortBy_congr {α : Type} (le1 le2 : α → α → Bool) (l : List α)
    (h : ∀ a ∈ l, ∀ b ∈ l, le1 a b = le2 a b) : sortBy le1 l = sortBy le2 l := by
  induction l with
  | nil => rfl
  | cons x xs ih =>
    simp only [sortBy]
    rw [ih (fun a ha b hb => h a (by simp [ha]) b (by simp [hb]))]
    exact insertBy_congr le1 le2 x (sortBy le2 xs) (fun b hb =>
      h x (by simp) b (List.mem_cons_of_mem x ((sortBy_perm le2 xs).mem_iff.mp hb)))

theorem insertBy_map {α β : Type} (f : α → β) (le : β → β → Bool) (x : α) (l : List α) :
    (insertBy (fun a b => le (f a) (f b)) x l).map f = insertBy le (f x) (l.map f) := by
  induction l with
  | nil => rfl
  | cons y ys ih =>
    simp only [insertBy, List.map_cons]
    split
    · simp
    · simp [ih]

theorem sortBy_map {α β : Type} (f : α → β) (le : β → β → Bool) (l : List α) :
    (sortBy (fun a b => le (f a) (f b)) l).map f = sortBy le (l.map f) := by
  induction l with
  | nil => rfl
  | cons x xs ih =>
    simp only [sortBy, List.map_cons]
    rw [insertBy_map, ih]

end RepMate

namespace RepMate

theorem idxOfAux_nodup :
    ∀ (l : List String), l.Nodup → ∀ (i : ℕ) (s : String),
      l.get? i = some s → idxOfAux s l = some i := by
  intro l
  induction l with
  | nil => intro _ i s h; simp at h
  | cons a tl ih =>
    intro hnd i s h
    rw [List.nodup_cons] at hnd
    cases i with
    | zero =>
      simp only [List.get?] at h
      injection h with h
      subst h
      simp [idxOfAux]
    | succ j =>
      simp only [List.get?] at h
      have hmem : s ∈ tl := List.get?_mem h
      have hne : (a == s) = false := by
        by_contra hcontra
        simp only [Bool.not_eq_false, beq_iff_eq] at hcontra
        exact hnd.1 (hcontra ▸ hmem)
      simp only [idxOfAux, hne, Bool.false_eq_true, if_false, ih hnd.2 j s h]
      rfl

theorem jsIndexOf_of_nodup (l : List String) (hnd : l.Nodup) (i : ℕ) (s : String)
    (h : l.get? i = some s) : jsIndexOf l s = (i : Int) := by
  unfold jsIndexOf
  rw [idxOfAux_nodup l hnd i s h]

theorem pairLe_total (a b : ℕ × RItem) : pairLe a b = true ∨ pairLe b a = true := by
  unfold pairLe
  by_cases hs : a.2.score = b.2.score
  · rw [if_pos hs, if_pos hs.symm]
    rcases Nat.le_total b.1 a.1 with h | h
    · exact Or.inl (by simpa using h)
    · exact Or.inr (by simpa using h)
  · rw [if_neg hs, if_neg (fun h => hs h.symm)]
    rcases lt_or_gt_of_ne (fun h => hs h) with h | h
    · exact Or.inr (by simpa using h)
    · exact Or.inl (by simpa using h)

theorem pairLe_trans (a b c : ℕ × RItem) (hab : pairLe a b = true)
    (hbc : pairLe b c = true) : pairLe a c = true := by
  unfold pairLe at *
  by_cases h1 : a.2.score = b.2.score <;> by_cases h2 : b.2.score = c.2.score
  · rw [if_pos h1] at hab
    rw [if_pos h2] at hbc
    rw [if_pos (h1.trans h2)]
    simp only [decide_eq_true_eq] at *
    omega
  · rw [if_neg h2] at hbc
    rw [if_neg (fun h => h2 (h1.symm.trans h))]
    simpa [h1] using hbc
  · rw [if_neg h1] at hab
    rw [if_neg (fun h => h1 (h.trans h2.symm))]
    simpa [h2] using hab
  · rw [if_neg h1] at hab
    rw [if_neg h2] at hbc
    simp only [decide_eq_true_eq] at hab hbc
    rw [if_neg (by intro h; rw [h] at hab; exact absurd (hab.trans hbc) (lt_irrefl _))]
    simp only [decide_eq_true_eq]
    exact hbc.trans hab

/-- C4 amended: when the size labels of the chart rows are pairwise
distinct, allSizes lists one entry per chart row, sorted by score
descending with exact ties broken toward the row with the larger native
index, and rightFit is the head of that ranking, null exactly when the
chart has no rows. -/
theorem claim_C4 (sizeChart : SChart) (user : List (String × ℚ))
    (garmentType : String) (m : BaggyMargin)
    (hnd : (sizeChart.rows.map SRow.size).Nodup) :
    (calculateRecommendations sizeChart user garmentType m).allSizes =
      (specRanked sizeChart user garmentType).map
        (fun p => (⟨p.2.size, p.2.fit, p.2.score⟩ : ASize)) ∧
    List.Perm ((specRanked sizeChart user garmentType).map Prod.snd)
      (resultsOf sizeChart user garmentType) ∧
    List.Pairwise (fun p q => q.2.score < p.2.score ∨
        (p.2.score = q.2.score ∧ q.1 < p.1))
      (specRanked sizeChart user garmentType) ∧
    (calculateRecommendations sizeChart user garmentType m).rightFit =
      ((specRanked sizeChart user garmentType).head?).map
        (fun p => (⟨p.2.size, p.2.score, p.2.notes⟩ : RFit)) ∧
    ((calculateRecommendations sizeChart user garmentType m).rightFit = none ↔
      sizeChart.rows = []) := by
  have hkey : ∀ p ∈ (resultsOf sizeChart user garmentType).enum,
      jsIndexOf (sizeChart.rows.map SRow.size) p.2.size = (p.1 : Int) := by
    intro p hp
    have hget := List.mem_enum_iff_getElem?.mp hp
    rw [resultsOf, List.getElem?_map] at hget
    cases hrow : sizeChart.rows[p.1]? with
    | none => rw [hrow] at hget; simp at hget
    | some row =>
      rw [hrow] at hget
      simp only [Option.map_some] at hget
      injection hget with hget
      have hsz : p.2.size = row.size := by rw [← hget]
      refine hsz ▸ jsIndexOf_of_nodup _ hnd p.1 row.size ?_
      rw [List.get?_eq_getElem?, List.getElem?_map, hrow]
      rfl
  have hcongr : ∀ a ∈ (resultsOf sizeChart user garmentType).enum,
      ∀ b ∈ (resultsOf sizeChart user garmentType).enum,
      pairLe a b = rankLe (sizeChart.rows.map SRow.size) a.2 b.2 := by
    intro a ha b hb
    unfold pairLe rankLe
    rw [hkey a ha, hkey b hb]
    by_cases hs : a.2.score = b.2.score
    · rw [if_pos hs, if_pos hs]
      exact decide_eq_decide.mpr Int.ofNat_le.symm
    · rw [if_neg hs, if_neg hs]
  have hranked : rankedOf sizeChart user garmentType =
      (specRanked sizeChart user garmentType).map Prod.snd := by
    unfold specRanked rankedOf
    rw [sortBy_congr pairLe
      (fun a b => rankLe (sizeChart.rows.map SRow.size) a.2 b.2) _ hcongr]
    rw [sortBy_map Prod.snd (rankLe (sizeChart.rows.map SRow.size)) _,
      List.enum_map_snd]
  have hperm : List.Perm ((specRanked sizeChart user garmentType).map Prod.snd)
      (resultsOf sizeChart user garmentType) := by
    have := (sortBy_perm pairLe (resultsOf sizeChart user garmentType).enum).map Prod.snd
    rwa [List.enum_map_snd] at this
  refine ⟨?_, hperm, ?_, ?_, ?_⟩
  · show (rankedOf sizeChart user garmentType).map _ = _
    rw [hranked, List.map_map]
    rfl
  · have hpw := sortBy_pairwise pairLe pairLe_total pairLe_trans
      (resultsOf sizeChart user garmentType).enum
    have hfst : ((specRanked sizeChart user garmentType).map Prod.fst).Nodup := by
      have hp := (sortBy_perm pairLe (resultsOf sizeChart user garmentType).enum).map
        Prod.fst
      rw [List.enum_map_fst] at hp
      exact hp.nodup_iff.mpr (List.nodup_range _)
    have hfst2 : (specRanked sizeChart user garmentType).Pairwise
        (fun p q => p.1 ≠ q.1) := List.pairwise_map.mp hfst
    refine (hpw.and hfst2).imp ?_
    intro p q hpq
    rcases hpq with ⟨hle, hne⟩
    unfold pairLe at hle
    by_cases hs : p.2.score = q.2.score
    · rw [if_pos hs] at hle
      simp only [decide_eq_true_eq] at hle
      exact Or.inr ⟨hs, lt_of_le_of_ne hle (fun h => hne (h ▸ rfl))⟩
    · rw [if_neg hs] at hle
      simp only [decide_eq_true_eq] at hle
      exact Or.inl hle
  · show ((rankedOf sizeChart user garmentType).head?).map _ = _
    rw [hranked, List.head?_map, Option.map_map]
    rfl
  · show ((rankedOf sizeChart user garmentType).head?).map _ = none ↔ _
    rw [Option.map_eq_none', List.head?_eq_none_iff]
    constructor
    · intro h
      have := (sortBy_perm (rankLe (sizeChart.rows.map SRow.size))
        (resultsOf sizeChart user garmentType)).length_eq
      rw [rankedOf] at h
      rw [h] at this
      simp only [List.length_nil] at this
      have : resultsOf sizeChart user garmentType = [] :=
        List.eq_nil_of_length_eq_zero this.symm
      rwa [resultsOf, List.map_eq_nil_iff] at this
    · intro h
      rw [rankedOf, resultsOf, h]
      rfl

/-- Counterexample to C4 as stated: with a duplicated size label and an
exact rounded-score tie, the output keeps the native order, while the
claimed tie rule predicts the later row's entry first. -/
theorem claim_C4_counterexample :
    (calculateRecommendations c4chart c4user "top" ⟨"size", 1⟩).allSizes =
      [⟨"M", "right", 85/100⟩, ⟨"M", "loose", 85/100⟩] ∧
    (specRanked c4chart c4user "top").map
        (fun p => (⟨p.2.size, p.2.fit, p.2.score⟩ : ASize)) =
      [⟨"M", "loose", 85/100⟩, ⟨"M", "right", 85/100⟩] ∧
    (calculateRecommendations c4chart c4user "top" ⟨"size", 1⟩).allSizes ≠
      (specRanked c4chart c4user "top").map
        (fun p => (⟨p.2.size, p.2.fit, p.2.score⟩ : ASize)) :=
  ⟨by decide, by decide, by decide⟩

/-- Witness for the amended C4 on the distinct-label test chart. -/
theorem claim_C4_witness :
    (wchart.rows.map SRow.size).Nodup ∧
    (calculateRecommendations wchart [("chest", 98)] "top" ⟨"size", 1⟩).allSizes =
      (specRanked wchart [("chest", 98)] "top").map
        (fun p => (⟨p.2.size, p.2.fit, p.2.score⟩ : ASize)) :=
  ⟨by decide,
    (claim_C4 wchart [("chest", 98)] "top" ⟨"size", 1⟩ (by decide)).1⟩

end RepMate

namespace RepMate

theorem bestStep_skip (primaryKey : String) (target : ℚ) :
    ∀ (rows : List SRow) (acc : Option String × Option ℚ),
    rows.foldl (bestStep primaryKey target) acc =
      (rows.filter (fun r => (aget r.vals primaryKey).isSome)).foldl
        (bestStep primaryKey target) acc := by
  intro rows
  induction rows with
  | nil => intro acc; rfl
  | cons c tl ih =>
    intro acc
    rw [List.foldl_cons, List.filter_cons]
    cases hc : aget c.vals primaryKey with
    | none =>
      have hid : bestStep primaryKey target acc c = acc := by
        unfold bestStep; rw [hc]
      simp only [hc, Option.isSome_none, Bool.false_eq_true, if_false]
      rw [hid, ih]
    | some v =>
      simp only [hc, Option.isSome_some, if_true]
      rw [List.foldl_cons, ih]

theorem bestStep_some (primaryKey : String) (target : ℚ) (c : SRow) (v : ℚ)
    (hc : aget c.vals primaryKey = some v) (s0 : String) (d0 : ℚ) :
    bestStep primaryKey target (some s0, some d0) c =
      if distOf primaryKey target c < d0
      then (some c.size, some (distOf primaryKey target c)) else (some s0, some d0) := by
  unfold bestStep distOf
  rw [hc]

theorem bestStep_first (primaryKey : String) (target : ℚ) (c : SRow) (v : ℚ)
    (hc : aget c.vals primaryKey = some v) :
    bestStep primaryKey target (none, none) c =
      (some c.size, some (distOf primaryKey target c)) := by
  unfold bestStep distOf
  rw [hc]

theorem bestFold_aux (primaryKey : String) (target : ℚ) :
    ∀ (l : List SRow),
    (∀ r ∈ l, (aget r.vals primaryKey).isSome = true) →
    ∀ (s0 : String) (d0 : ℚ),
    (l.foldl (bestStep primaryKey target) (some s0, some d0) = (some s0, some d0) ∧
      ∀ r ∈ l, d0 ≤ distOf primaryKey target r) ∨
    (∃ pre r post, l = pre ++ r :: post ∧
      l.foldl (bestStep primaryKey target) (some s0, some d0) =
        (some r.size, some (distOf primaryKey target r)) ∧
      distOf primaryKey target r < d0 ∧
      (∀ r2 ∈ pre, distOf primaryKey target r < distOf primaryKey target r2) ∧
      (∀ r2 ∈ post, distOf primaryKey target r ≤ distOf primaryKey target r2)) := by
  intro l
  induction l with
  | nil => intro _ s0 d0; exact Or.inl ⟨rfl, by simp⟩
  | cons c tl ih =>
    intro hall s0 d0
    obtain ⟨v, hv⟩ := Option.isSome_iff_exists.mp (hall c (by simp))
    rw [List.foldl_cons, bestStep_some primaryKey target c v hv s0 d0]
    by_cases hlt : distOf primaryKey target c < d0
    · rw [if_pos hlt]
      rcases ih (fun r hr => hall r (by simp [hr])) c.size (distOf primaryKey target c)
        with ⟨heq, hge⟩ | ⟨pre, r, post, hsplit, hfold, hlt2, hpre, hpost⟩
      · refine Or.inr ⟨[], c, tl, by simp, heq, hlt, by simp, hge⟩
      · refine Or.inr ⟨c :: pre, r, post, by rw [hsplit]; rfl, hfold,
          hlt2.trans hlt, ?_, hpost⟩
        intro r2 hr2
        rcases List.mem_cons.mp hr2 with h | h
        · exact h ▸ hlt2
        · exact hpre r2 h
    · rw [if_neg hlt]
      rcases ih (fun r hr => hall r (by simp [hr])) s0 d0
        with ⟨heq, hge⟩ | ⟨pre, r, post, hsplit, hfold, hlt2, hpre, hpost⟩
      · refine Or.inl ⟨heq, ?_⟩
        intro r2 hr2
        rcases List.mem_cons.mp hr2 with h | h
        · exact h ▸ (not_lt.mp hlt)
        · exact hge r2 h
      · refine Or.inr ⟨c :: pre, r, post, by rw [hsplit]; rfl, hfold, hlt2, ?_, hpost⟩
        intro r2 hr2
        rcases List.mem_cons.mp hr2 with h | h
        · exact h ▸ (hlt2.trans_le (not_lt.mp hlt))
        · exact hpre r2 h

/-- bestMatchFold selects the earliest row, among those carrying the
primary key, minimizing the adjusted distance to the target. -/
theorem bestMatchFold_spec (rows : List SRow) (primaryKey : String) (target : ℚ)
    (hcand : rows.filter (fun r => (aget r.vals primaryKey).isSome) ≠ []) :
    ∃ pre r post,
      rows.filter (fun r => (aget r.vals primaryKey).isSome) = pre ++ r :: post ∧
      bestMatchFold rows primaryKey target = some r.size ∧
      (∀ r2 ∈ pre, distOf primaryKey target r < distOf primaryKey target r2) ∧
      (∀ r2 ∈ post, distOf primaryKey target r ≤ distOf primaryKey target r2) := by
  unfold bestMatchFold
  rw [bestStep_skip]
  cases hcnd : rows.filter (fun r => (aget r.vals primaryKey).isSome) with
  | nil => exact absurd hcnd hcand
  | cons c tl =>
    have hall : ∀ r ∈ c :: tl, (aget r.vals primaryKey).isSome = true := by
      intro r hr
      have : r ∈ rows.filter (fun r => (aget r.vals primaryKey).isSome) := hcnd ▸ hr
      exact (List.mem_filter.mp this).2
    obtain ⟨v, hv⟩ := Option.isSome_iff_exists.mp (hall c (by simp))
    rw [List.foldl_cons, bestStep_first primaryKey target c v hv]
    rcases bestFold_aux primaryKey target tl (fun r hr => hall r (by simp [hr]))
        c.size (distOf primaryKey target c)
      with ⟨heq, hge⟩ | ⟨pre, r, post, hsplit, hfold, hlt2, hpre, hpost⟩
    · exact ⟨[], c, tl, by simp, by rw [heq], by simp, hge⟩
    · refine ⟨c :: pre, r, post, by rw [hsplit]; simp, by rw [hfold], ?_, hpost⟩
      intro r2 hr2
      rcases List.mem_cons.mp hr2 with h | h
      · exact h ▸ hlt2
      · exact hpre r2 h

end RepMate

namespace RepMate

/-- C5 amended: for cm and percent margins the target is the user
primary value plus the margin (cm) or scaled by it (percent), and
baggyFit is the earliest chart row whose primary value, adjusted by the
absolute-threshold doubling of the baggy path (chest below 70, waist
below 50, with no ratio test), is closest to the target. -/
theorem claim_C5 (sizeChart : SChart) (user : List (String × ℚ))
    (garmentType : String) (m : BaggyMargin)
    (hty : m.type = "cm" ∨ m.type = "percent") (uv : ℚ)
    (hu : aget user (primaryKeyOf garmentType) = some uv)
    (hsz : ∀ r ∈ sizeChart.rows, r.size ≠ "")
    (hcand : sizeChart.rows.filter
      (fun r => (aget r.vals (primaryKeyOf garmentType)).isSome) ≠ []) :
    ∃ pre r post,
      sizeChart.rows.filter
        (fun r => (aget r.vals (primaryKeyOf garmentType)).isSome) =
        pre ++ r :: post ∧
      ((calculateRecommendations sizeChart user garmentType m).baggyFit).map
        RFit.size = some r.size ∧
      (∀ r2 ∈ pre, distOf (primaryKeyOf garmentType) (baggyTarget m uv) r <
        distOf (primaryKeyOf garmentType) (baggyTarget m uv) r2) ∧
      (∀ r2 ∈ post, distOf (primaryKeyOf garmentType) (baggyTarget m uv) r ≤
        distOf (primaryKeyOf garmentType) (baggyTarget m uv) r2) := by
  obtain ⟨pre, r, post, hsplit, hbm, hpre, hpost⟩ :=
    bestMatchFold_spec sizeChart.rows (primaryKeyOf garmentType)
      (baggyTarget m uv) hcand
  refine ⟨pre, r, post, hsplit, ?_, hpre, hpost⟩
  have hrmem : r ∈ sizeChart.rows := by
    have hm : r ∈ sizeChart.rows.filter
        (fun q => (aget q.vals (primaryKeyOf garmentType)).isSome) := by
      rw [hsplit]
      exact List.mem_append_right _ (by simp)
    exact (List.mem_filter.mp hm).1
  have hrsz : r.size ≠ "" := hsz r hrmem
  have h1 : ∃ x ∈ resultsOf sizeChart user garmentType, x.size = r.size := by
    simp only [resultsOf]
    exact ⟨_, List.mem_map_of_mem _ hrmem, rfl⟩
  obtain ⟨x, hxmem, hxsz⟩ := h1
  have h2 : x ∈ rankedOf sizeChart user garmentType := by
    simp only [rankedOf]
    exact ((sortBy_perm _ _).mem_iff).mpr hxmem
  have hfind : ∃ xf, (rankedOf sizeChart user garmentType).find?
      (fun q => q.size == r.size) = some xf := by
    rw [← Option.isSome_iff_exists]
    exact List.find?_isSome.mpr ⟨x, h2, by simp [hxsz]⟩
  obtain ⟨xf, hxf⟩ := hfind
  have hxfsz : xf.size = r.size := by simpa using List.find?_some hxf
  have hne : rankedOf sizeChart user garmentType ≠ [] := by
    intro hnil
    rw [hnil] at h2
    exact absurd h2 (List.not_mem_nil x)
  have hhd : ∃ hd tl2, rankedOf sizeChart user garmentType = hd :: tl2 := by
    cases hrk : rankedOf sizeChart user garmentType with
    | nil => exact absurd hrk hne
    | cons hd tl2 => exact ⟨hd, tl2, rfl⟩
  obtain ⟨hd, tl2, hrk⟩ := hhd
  have hty1 : ¬ m.type = "size" := by
    rcases hty with h | h <;> rw [h] <;> decide
  have hcore : baggyFitOf sizeChart user garmentType m = some xf := by
    unfold baggyFitOf
    rw [hrk]
    simp only [List.head?_cons, if_neg hty1, if_pos hty, hu, hbm, ← hrk, hxf,
      if_neg hrsz]
    rw [hrk]
    rfl
  show (Option.map _ (match baggyFitOf sizeChart user garmentType m with
    | some x => some x
    | none => if 1 < (resultsOf sizeChart user garmentType).length
        then (rankedOf sizeChart user garmentType).get? 1 else none)).map RFit.size = _
  rw [hcore]
  simp [hxfsz]

/-- Counterexample to C5 as stated: the baggy cm path applies only the
absolute-threshold doubling, not the ratio test of fit scoring, so with
user chest 130 and margin 5 cm the row with chest 88 (adjusted to 176 by
the fit-scoring doubling, distance 41 to the target 135) is strictly
closer than the selected row with chest 45 (adjusted 90, distance 45). -/
theorem claim_C5_counterexample :
    ((calculateRecommendations c5chart c5user "top" ⟨"cm", 5⟩).baggyFit).map
      RFit.size = some "S" ∧
    halfAdjust "chest" 45 130 = 90 ∧
    halfAdjust "chest" 88 130 = 176 ∧
    |halfAdjust "chest" 88 130 - (130 + 5)| <
      |halfAdjust "chest" 45 130 - (130 + 5)| :=
  ⟨by decide, by decide, by decide, by decide⟩

/-- Witness for the amended C5 on the counterexample chart. -/
theorem claim_C5_witness :
    aget c5user (primaryKeyOf "top") = some 130 ∧
    (∃ pre r post,
      c5chart.rows.filter
        (fun r => (aget r.vals (primaryKeyOf "top")).isSome) = pre ++ r :: post ∧
      ((calculateRecommendations c5chart c5user "top" ⟨"cm", 5⟩).baggyFit).map
        RFit.size = some r.size ∧
      (∀ r2 ∈ pre, distOf (primaryKeyOf "top") (baggyTarget ⟨"cm", 5⟩ 130) r <
        distOf (primaryKeyOf "top") (baggyTarget ⟨"cm", 5⟩ 130) r2) ∧
      (∀ r2 ∈ post, distOf (primaryKeyOf "top") (baggyTarget ⟨"cm", 5⟩ 130) r ≤
        distOf (primaryKeyOf "top") (baggyTarget ⟨"cm", 5⟩ 130) r2)) :=
  ⟨by decide, claim_C5 c5chart c5user "top" ⟨"cm", 5⟩ (Or.inl rfl) 130
    (by decide) (by decide) (by decide)⟩

end RepMate

namespace RepMate

/-! ## Best-candidate fold of the single-table fallback -/

/-- The best-candidate fold keeps its accumulator unless a result is
strictly better, so it returns the starting candidate when nothing beats
it, and otherwise the first result of maximal score. -/
theorem pickAux (l : List PResult) (a : PResult) :
    (((l.foldl (fun acc r => if acc.2 < scoreOf r then (r, scoreOf r) else acc)
        (a, scoreOf a)).1 = a ∧ ∀ r ∈ l, scoreOf r ≤ scoreOf a) ∨
     ∃ pre b post, l = pre ++ b :: post ∧
       (l.foldl (fun acc r => if acc.2 < scoreOf r then (r, scoreOf r) else acc)
         (a, scoreOf a)).1 = b ∧
       scoreOf a < scoreOf b ∧ (∀ r ∈ pre, scoreOf r < scoreOf b) ∧
       (∀ r ∈ post, scoreOf r ≤ scoreOf b)) := by
  induction l generalizing a with
  | nil => exact Or.inl ⟨rfl, by simp⟩
  | cons r rest ih =>
    by_cases h : scoreOf a < scoreOf r
    · have hfold :
          ((r :: rest).foldl
            (fun acc x => if acc.2 < scoreOf x then (x, scoreOf x) else acc)
            (a, scoreOf a)) =
          (rest.foldl
            (fun acc x => if acc.2 < scoreOf x then (x, scoreOf x) else acc)
            (r, scoreOf r)) := by
        simp [h]
      rcases ih r with ⟨h1, h2⟩ | ⟨pre, b, post, hsplit, hb, hlt, hpre, hpost⟩
      · exact Or.inr ⟨[], r, rest, by simp, by rw [hfold]; exact h1, h, by simp, h2⟩
      · refine Or.inr ⟨r :: pre, b, post, by simp [hsplit], by rw [hfold]; exact hb,
          h.trans hlt, ?_, hpost⟩
        intro x hx
        rcases List.mem_cons.mp hx with hx | hx
        · exact hx ▸ hlt
        · exact hpre x hx
    · have hfold :
          ((r :: rest).foldl
            (fun acc x => if acc.2 < scoreOf x then (x, scoreOf x) else acc)
            (a, scoreOf a)) =
          (rest.foldl
            (fun acc x => if acc.2 < scoreOf x then (x, scoreOf x) else acc)
            (a, scoreOf a)) := by
        simp [h]
      rcases ih a with ⟨h1, h2⟩ | ⟨pre, b, post, hsplit, hb, hlt, hpre, hpost⟩
      · refine Or.inl ⟨by rw [hfold]; exact h1, ?_⟩
        intro x hx
        rcases List.mem_cons.mp hx with hx | hx
        · exact hx ▸ le_of_not_lt h
        · exact h2 x hx
      · refine Or.inr ⟨r :: pre, b, post, by simp [hsplit], by rw [hfold]; exact hb,
          hlt, ?_, hpost⟩
        intro x hx
        rcases List.mem_cons.mp hx with hx | hx
        · exact hx ▸ lt_of_le_of_lt (le_of_not_lt h) hlt
        · exact hpre x hx

/-- When every result scores zero, the fold keeps the empty result. -/
theorem pickBest_zero (l : List PResult) (h : ∀ r ∈ l, scoreOf r = 0) :
    pickBest l = ⟨[], []⟩ := by
  rcases pickAux l ⟨[], []⟩ with ⟨h1, _⟩ | ⟨pre, b, post, hsplit, _, hlt, _, _⟩
  · exact h1
  · have hb : b ∈ l := by rw [hsplit]; exact List.mem_append_right _ (List.mem_cons_self _ _)
    have hz := h b hb
    have h0 : scoreOf (⟨[], []⟩ : PResult) = 0 := rfl
    rw [h0, hz] at hlt
    exact absurd hlt (lt_irrefl 0)

/-- When some result scores positively, the chosen result is the first
of maximal score: everything before is strictly worse, everything after
no better. -/
theorem pickBest_split (l : List PResult) (h : ∃ r ∈ l, 0 < scoreOf r) :
    ∃ pre post, l = pre ++ pickBest l :: post ∧ 0 < scoreOf (pickBest l) ∧
      (∀ r ∈ pre, scoreOf r < scoreOf (pickBest l)) ∧
      (∀ r ∈ post, scoreOf r ≤ scoreOf (pickBest l)) := by
  rcases pickAux l ⟨[], []⟩ with ⟨_, h2⟩ | ⟨pre, b, post, hsplit, hb, hlt, hpre, hpost⟩
  · obtain ⟨r, hr, hpos⟩ := h
    have hle := h2 r hr
    have h0 : scoreOf (⟨[], []⟩ : PResult) = 0 := rfl
    rw [h0] at hle
    omega
  · have hpb : pickBest l = b := hb
    exact ⟨pre, post, by rw [hpb]; exact hsplit, by rw [hpb]; exact hlt,
      by rw [hpb]; exact hpre, by rw [hpb]; exact hpost⟩

end RepMate

namespace RepMate

/-- C6.  Corrected: in the single-table fallback of parseSizeChart,
the participation thresholds are two rows for the column-grouped and
numeric-size strategies and three for the OCR-specific strategy, but
only one row for the row-based, alternative, and positional strategies,
as the fallbackResults definition records; among participants the
returned chart carries the first result of maximal score
rowCount x keyCountOfFirstRow, everything before it scoring strictly
less and everything after no more, and when every participant scores
zero the chart is empty. -/
theorem claim_C6 (s : String) (hs : s ≠ "")
    (hmt : parseMultipleTables (translateChineseL (ocrFix s.data)) = []) :
    ((parseSizeChart (some s)).headers =
       (pickBest (fallbackResults (translateChineseL (ocrFix s.data)))).headers ∧
     (parseSizeChart (some s)).rows =
       (pickBest (fallbackResults (translateChineseL (ocrFix s.data)))).rows) ∧
    ((∀ r ∈ fallbackResults (translateChineseL (ocrFix s.data)), scoreOf r = 0) →
       (parseSizeChart (some s)).headers = [] ∧
       (parseSizeChart (some s)).rows = [] ∧
       (parseSizeChart (some s)).tables = []) ∧
    ((∃ r ∈ fallbackResults (translateChineseL (ocrFix s.data)), 0 < scoreOf r) →
       ∃ pre post,
         fallbackResults (translateChineseL (ocrFix s.data)) =
           pre ++ pickBest (fallbackResults (translateChineseL (ocrFix s.data))) :: post ∧
         0 < scoreOf (pickBest (fallbackResults (translateChineseL (ocrFix s.data)))) ∧
         (∀ r ∈ pre, scoreOf r <
           scoreOf (pickBest (fallbackResults (translateChineseL (ocrFix s.data))))) ∧
         (∀ r ∈ post, scoreOf r ≤
           scoreOf (pickBest (fallbackResults (translateChineseL (ocrFix s.data)))))) := by
  refine ⟨⟨?_, ?_⟩, ?_, ?_⟩
  · simp [parseSizeChart, hs, hmt]
  · simp [parseSizeChart, hs, hmt]
  · intro hz
    have hpz := pickBest_zero _ hz
    simp [parseSizeChart, hs, hmt, hpz]
  · intro hex
    exact pickBest_split _ hex

/-- C6 counterexample.  On the input M 50 60 70 every strategy returns
fewer than two rows (fewer than three for the OCR-specific one), so
under the claimed thresholds no result would participate and the chart
would be empty; the code still returns one row, because the row-based
strategy participates with a single row. -/
theorem claim_C6_counterexample :
    (parseSizeChart (some "M 50 60 70")).rows.length = 1 ∧
    (parseColumnGroupedFormat (translateChineseL (ocrFix ("M 50 60 70").data))).rows.length < 2 ∧
    (parseOCRSpecificFormat (translateChineseL (ocrFix ("M 50 60 70").data))).rows.length < 3 ∧
    (parseNumericSizeFormat (translateChineseL (ocrFix ("M 50 60 70").data))).rows.length < 2 ∧
    (parseRowBasedTable (translateChineseL (ocrFix ("M 50 60 70").data))).rows.length < 2 ∧
    (parseAlternativeFormat (translateChineseL (ocrFix ("M 50 60 70").data))).rows.length < 2 ∧
    (parseByPosition (translateChineseL (ocrFix ("M 50 60 70").data))).rows.length < 2 := by
  decide

/-- C6 witness: the selection theorem applied to M 50 60 70. -/
theorem claim_C6_witness :
    ∃ pre post,
      fallbackResults (translateChineseL (ocrFix ("M 50 60 70").data)) =
        pre ++ pickBest (fallbackResults (translateChineseL (ocrFix ("M 50 60 70").data))) :: post ∧
      0 < scoreOf (pickBest (fallbackResults (translateChineseL (ocrFix ("M 50 60 70").data)))) ∧
      (∀ r ∈ pre, scoreOf r <
        scoreOf (pickBest (fallbackResults (translateChineseL (ocrFix ("M 50 60 70").data))))) ∧
      (∀ r ∈ post, scoreOf r ≤
        scoreOf (pickBest (fallbackResults (translateChineseL (ocrFix ("M 50 60 70").data))))) :=
  (claim_C6 "M 50 60 70" (by decide) (by decide)).2.2 (by decide)

/-- C7.  Confirmed: parseSizeChart is a total function of its input (it
is defined for every option-valued string, so it never throws); null
and the empty string give the empty chart, and when multi-table
detection finds nothing and no fallback strategy produces any rows the
returned chart has empty headers, rows, and tables. -/
theorem claim_C7 :
    parseSizeChart none = ⟨[], [], [], "", ""⟩ ∧
    parseSizeChart (some "") = ⟨[], [], [], "", ""⟩ ∧
    ∀ s, s ≠ "" →
      parseMultipleTables (translateChineseL (ocrFix s.data)) = [] →
      (∀ r ∈ fallbackResults (translateChineseL (ocrFix s.data)), r.rows = []) →
      (parseSizeChart (some s)).headers = [] ∧
      (parseSizeChart (some s)).rows = [] ∧
      (parseSizeChart (some s)).tables = [] := by
  refine ⟨rfl, rfl, ?_⟩
  intro s hs hmt hall
  have hz : ∀ r ∈ fallbackResults (translateChineseL (ocrFix s.data)), scoreOf r = 0 := by
    intro r hr
    simp [scoreOf, hall r hr]
  have hpz := pickBest_zero _ hz
  simp [parseSizeChart, hs, hmt, hpz]

/-- C7 witness: the empty-chart theorem applied to the input hello, a
text on which every strategy is empty. -/
theorem claim_C7_witness :
    (parseSizeChart (some "hello")).headers = [] ∧
    (parseSizeChart (some "hello")).rows = [] ∧
    (parseSizeChart (some "hello")).tables = [] :=
  claim_C7.2.2 "hello" (by decide) (by decide) (by decide)

/-- C8.  Corrected: containsSizeGuide is false on null and empty text,
and otherwise true exactly when a measurement keyword occurs and the
text has a unit-qualified number, a bare bounded two-or-three digit
table number, or a size token; the bare table-number disjunct is
missing from the claim. -/
theorem claim_C8 :
    containsSizeGuide none = false ∧ containsSizeGuide (some "") = false ∧
    ∀ s, s ≠ "" →
      containsSizeGuide (some s) =
        (testKeywords s.data &&
          ((testMeasurementWithUnit s.data || testTableNumbers s.data) ||
            testSizeLabels s.data)) := by
  refine ⟨rfl, rfl, ?_⟩
  intro s hs
  simp only [containsSizeGuide, if_neg hs]

/-- C8 counterexample.  The text chest 123 has a measurement keyword
and a bare bounded number but neither a unit-qualified number nor any
size token, so the claimed condition is false while the code returns
true. -/
theorem claim_C8_counterexample :
    containsSizeGuide (some "chest 123") = true ∧
    specContainsSizeGuide (some "chest 123") = false := by
  decide

/-- C8 witness: the characterisation applied to chest 90cm. -/
theorem claim_C8_witness :
    containsSizeGuide (some "chest 90cm") = true :=
  (claim_C8.2.2 "chest 90cm" (by decide)).trans (by decide)

end RepMate

namespace RepMate

/-! ## Row invariants of the multi-table path -/

/-- Membership after a property write: the new pair or an old one. -/
theorem mem_aset {α : Type} (l : List (String × α)) (k : String) (v : α) :
    ∀ q ∈ aset l k v, q = (k, v) ∨ q ∈ l := by
  induction l with
  | nil => intro q hq; simp [aset] at hq; exact Or.inl hq
  | cons p rest ih =>
    intro q hq
    by_cases hp : (p.1 == k) = true
    · simp only [aset, hp, if_true] at hq
      rcases List.mem_cons.mp hq with hq | hq
      · exact Or.inl hq
      · exact Or.inr (List.mem_cons_of_mem _ hq)
    · simp only [aset, hp, if_false, Bool.false_eq_true] at hq
      rcases List.mem_cons.mp hq with hq | hq
      · exact Or.inr (hq ▸ List.mem_cons_self _ _)
      · rcases ih q hq with h | h
        · exact Or.inl h
        · exact Or.inr (List.mem_cons_of_mem _ h)

/-- A write under a different key keeps the head pair in place. -/
theorem head?_aset_ne {α : Type} (l : List (String × α)) (k : String) (v : α)
    (p0 : String × α) (hne : p0.1 ≠ k) (h : l.head? = some p0) :
    (aset l k v).head? = some p0 := by
  cases l with
  | nil => simp at h
  | cons p rest =>
    have hp : p = p0 := by simpa using h
    subst hp
    have hb : (p.1 == k) = false := by
      simp only [beq_eq_false_iff_ne, ne_eq]
      exact hne
    simp [aset, hb]

/-- The property named by the head pair reads back as its value. -/
theorem aget_of_head {α : Type} (l : List (String × α)) (k : String) (v : α)
    (h : l.head? = some (k, v)) : aget l k = some v := by
  cases l with
  | nil => simp at h
  | cons p rest =>
    have hp : p = (k, v) := by simpa using h
    subst hp
    simp [aget, List.find?]

/-- The value fold of a row builder keeps the size header in place when
no data key is the size key. -/
theorem foldl_rowvals_head (data : List (String × List ℚ)) (i : Nat)
    (hkeys : ∀ p ∈ data, p.1 ≠ "size") :
    ∀ (init : Obj) (v0 : JVal), init.head? = some ("size", v0) →
      ((data.foldl (fun row p =>
        match p.2.get? i with
        | some v => aset row p.1 (JVal.num v)
        | none => row) init).head? = some ("size", v0)) := by
  induction data with
  | nil => intro init v0 hinit; exact hinit
  | cons p rest ih =>
    intro init v0 hinit
    simp only [List.foldl_cons]
    apply ih (fun q hq => hkeys q (List.mem_cons_of_mem _ hq))
    cases hv : p.2.get? i with
    | none => exact hinit
    | some v =>
      exact head?_aset_ne init p.1 (JVal.num v) ("size", v0)
        (fun he => hkeys p (List.mem_cons_self _ _) he.symm) hinit

/-- Membership in a guarded-append fold over a list. -/
theorem mem_foldl_guardAppend {β : Type} (g : β → Obj) (l : List β)
    (init : List Obj) :
    ∀ r ∈ l.foldl (fun rows x =>
        if 1 < (g x).length then rows ++ [g x] else rows) init,
      r ∈ init ∨ ∃ x ∈ l, r = g x ∧ 1 < (g x).length := by
  induction l generalizing init with
  | nil => intro r hr; exact Or.inl hr
  | cons x rest ih =>
    intro r hr
    simp only [List.foldl_cons] at hr
    rcases ih _ r hr with hin | ⟨y, hy, hgy⟩
    · by_cases hx : 1 < (g x).length
      · rw [if_pos hx] at hin
        rcases List.mem_append.mp hin with hin | hin
        · exact Or.inl hin
        · exact Or.inr ⟨x, List.mem_cons_self _ _, List.eq_of_mem_singleton hin, hx⟩
      · rw [if_neg hx] at hin
        exact Or.inl hin
    · exact Or.inr ⟨y, List.mem_cons_of_mem _ hy, hgy⟩

/-- A nonempty character list makes a nonempty string. -/
theorem mkStr_ne_empty (l : List Char) (h : l ≠ []) : String.mk l ≠ "" := by
  intro he
  have hd := congrArg String.data he
  simp at hd
  exact h hd

/-- The rows a table builder emits: each carries the size label of its
index as a string property, and at least one further property. -/
theorem buildSizeRows_invariant (sizes : List String) (data : List (String × List ℚ))
    (hkeys : ∀ p ∈ data, p.1 ≠ "size") (hsz : ∀ sz ∈ sizes, sz ≠ "") :
    ∀ r ∈ buildSizeRows sizes data,
      (∃ sz, aget r "size" = some (JVal.str sz) ∧ sz ≠ "") ∧ 2 ≤ r.length := by
  have hG : ∀ r ∈ (List.range sizes.length).foldl (fun rows x =>
      if 1 < ((fun i => data.foldl (fun row p =>
        match p.2.get? i with
        | some v => aset row p.1 (JVal.num v)
        | none => row) [("size", JVal.str ((sizes.get? i).getD ""))]) x).length then
        rows ++ [(fun i => data.foldl (fun row p =>
          match p.2.get? i with
          | some v => aset row p.1 (JVal.num v)
          | none => row) [("size", JVal.str ((sizes.get? i).getD ""))]) x]
      else rows) [],
      (∃ sz, aget r "size" = some (JVal.str sz) ∧ sz ≠ "") ∧ 2 ≤ r.length := by
    intro r hr
    rcases mem_foldl_guardAppend _ _ _ r hr with hin | ⟨i, hi, hr_eq, hlen⟩
    · simp at hin
    · subst hr_eq
      have hilt : i < sizes.length := List.mem_range.mp hi
      obtain ⟨sz, hsome⟩ : ∃ sz, sizes.get? i = some sz := by
        cases hq : sizes.get? i with
        | none => exact absurd (List.get?_eq_none.mp hq) (by omega)
        | some sz => exact ⟨sz, rfl⟩
      have hszmem : sz ∈ sizes := List.get?_mem hsome
      have hhead := foldl_rowvals_head data i hkeys
        [("size", JVal.str ((sizes.get? i).getD ""))] (JVal.str ((sizes.get? i).getD ""))
        (by simp)
      refine ⟨⟨(sizes.get? i).getD "", aget_of_head _ _ _ hhead, ?_⟩, ?_⟩
      · rw [hsome]
        exact hsz sz hszmem
      · exact hlen
  exact hG

end RepMate

namespace RepMate

/-- A payload property of a matcher lifts to every scan result. -/
theorem gscanF_payload {α : Type} (m : Option Char → List Char → Option (α × Nat))
    (P : α → Prop) (hm : ∀ prev l a k, m prev l = some (a, k) → P a) :
    ∀ fuel prev l, ∀ a ∈ gscanF m fuel prev l, P a := by
  intro fuel
  induction fuel with
  | zero => intro prev l a ha; simp [gscanF] at ha
  | succ n ih =>
    intro prev l a ha
    cases l with
    | nil => simp [gscanF] at ha
    | cons c cs =>
      rw [gscanF] at ha
      cases hm2 : m prev (c :: cs) with
      | none =>
        rw [hm2] at ha
        exact ih _ _ a ha
      | some x =>
        obtain ⟨a0, k⟩ := x
        rw [hm2] at ha
        rcases List.mem_cons.mp ha with ha | ha
        · exact ha ▸ hm prev (c :: cs) a0 k hm2
        · exact ih _ _ a ha

/-- The scan version of the payload lift. -/
theorem gscan_payload {α : Type} (m : Option Char → List Char → Option (α × Nat))
    (P : α → Prop) (hm : ∀ prev l a k, m prev l = some (a, k) → P a) :
    ∀ prev l, ∀ a ∈ gscan m prev l, P a := by
  intro prev l
  exact gscanF_payload m P hm l.length prev l

/-- The EU size matcher yields two characters. -/
theorem euSizeM_payload : ∀ prev l a k, euSizeM prev l = some (a, k) → a ≠ [] := by
  intro prev l a k h
  unfold euSizeM at h
  split at h
  · split at h
    · split at h
      · have := (Prod.mk.injEq .. ▸ Option.some.inj h).1
        rw [← this]
        simp
      · exact absurd h (by simp)
    · exact absurd h (by simp)
  · exact absurd h (by simp)

/-- The single-digit matcher yields one character. -/
theorem singleDigitM_payload : ∀ prev l a k, singleDigitM prev l = some (a, k) → a ≠ [] := by
  intro prev l a k h
  unfold singleDigitM at h
  split at h
  · split at h
    · split at h
      · have := (Prod.mk.injEq .. ▸ Option.some.inj h).1
        rw [← this]
        simp
      · exact absurd h (by simp)
    · exact absurd h (by simp)
  · exact absurd h (by simp)

/-- A boundary alternation over nonempty alternatives yields a nonempty
token. -/
theorem altB_payload (alts : List (List Char)) (halts : ∀ a ∈ alts, a ≠ []) :
    ∀ prev l t k, altB alts prev l = some (t, k) → t ≠ [] := by
  intro prev l t k h
  unfold altB at h
  split at h
  · obtain ⟨a, ha, hfa⟩ := List.exists_of_findSome?_eq_some h
    split at hfa
    · next hcond =>
      obtain ⟨ht, _⟩ := Prod.mk.injEq .. ▸ Option.some.inj hfa
      intro hnil
      rw [hnil] at ht
      have hci : ciPrefix a l = true := (Bool.and_eq_true ..).mp hcond |>.1
      cases a with
      | nil => exact halts [] ha rfl
      | cons p ps =>
        cases l with
        | nil => simp [ciPrefix] at hci
        | cons c cs =>
          have hkk : (c :: cs).take (p :: ps).length = [] := ht
          simp at hkk
    · exact absurd hfa (by simp)
  · exact absurd h (by simp)

/-- Every size a size row yields is a nonempty string. -/
theorem extractSizes_ne (line : List Char) : ∀ sz ∈ extractSizes line, sz ≠ "" := by
  intro sz hsz
  simp only [extractSizes] at hsz
  split at hsz
  · obtain ⟨t, ht, hts⟩ := List.mem_map.mp hsz
    exact hts ▸ mkStr_ne_empty t (gscan_payload euSizeM _ euSizeM_payload none line t ht)
  · split at hsz
    · obtain ⟨t, ht, hts⟩ := List.mem_map.mp hsz
      have htne : t ≠ [] :=
        gscan_payload letterSizeB _
          (fun prev l a k hh =>
            altB_payload letterSizeAlts (by decide) prev l a k hh)
          none line t ht
      refine hts ▸ mkStr_ne_empty _ ?_
      simp only [ne_eq, List.map_eq_nil_iff]
      exact htne
    · split at hsz
      · obtain ⟨t, ht, hts⟩ := List.mem_map.mp hsz
        exact hts ▸ mkStr_ne_empty t
          (gscan_payload singleDigitM _ singleDigitM_payload none line t ht)
      · simp at hsz

end RepMate

namespace RepMate

/-- The fresh-key search only extends its base name. -/
theorem freshKeyAux_prefix {α : Type} (data : List (String × α)) (name : String) :
    ∀ fuel c, name.data.isPrefixOf (freshKeyAux data name fuel c).data = true := by
  intro fuel
  induction fuel with
  | zero =>
    intro c
    rw [freshKeyAux, List.isPrefixOf_iff_prefix, String.data_append]
    exact List.prefix_append _ _
  | succ n ih =>
    intro c
    rw [freshKeyAux]
    split
    · rw [List.isPrefixOf_iff_prefix, String.data_append]
      exact List.prefix_append _ _
    · exact ih (c + 1)

/-- A fresh key keeps its base name as a prefix. -/
theorem freshKey_prefix {α : Type} (data : List (String × α)) (name : String) :
    name.data.isPrefixOf (freshKey data name).data = true := by
  rw [freshKey]
  split
  · rw [List.isPrefixOf_iff_prefix]
  · exact freshKeyAux_prefix data name _ 2

/-- A fresh key cannot be a string its base name is no prefix of. -/
theorem freshKey_ne {α : Type} (data : List (String × α)) (name tgt : String)
    (h : name.data.isPrefixOf tgt.data = false) : freshKey data name ≠ tgt := by
  intro he
  have hp := freshKey_prefix data name
  rw [he, h] at hp
  exact Bool.false_ne_true hp

/-- One measurement line never stores a value under the size key. -/
theorem mtLineStep_keys (nsizes : Nat) (line : List Char)
    (data : List (String × List ℚ)) (hkeys : ∀ p ∈ data, p.1 ≠ "size") :
    ∀ p ∈ mtLineStep nsizes data line, p.1 ≠ "size" := by
  intro p hp
  simp only [mtLineStep] at hp
  split at hp
  · exact hkeys p hp
  · split at hp
    · exact hkeys p hp
    · split at hp
      · split at hp
        · next name hname =>
          rcases mem_aset _ _ _ p hp with hq | hq
          · rw [hq]
            show freshKey data name ≠ "size"
            obtain ⟨q, hfind, hq2⟩ := Option.map_eq_some'.mp hname
            have hqmem : q ∈ mtKeywords := List.mem_of_find?_eq_some hfind
            have hall : ∀ q2 ∈ mtKeywords,
                (q2.2.data.isPrefixOf ("size".data)) = false := by decide
            refine freshKey_ne data _ "size" ?_
            rw [← hq2]
            exact hall q hqmem
          · exact hkeys p hq
        · split at hp
          · exact hkeys p hp
          · rcases mem_aset _ _ _ p hp with hq | hq
            · rw [hq]
              refine freshKey_ne data _ "size" ?_
              repeat' split
              all_goals decide
            · exact hkeys p hq
      · exact hkeys p hp

/-- The line fold of a table segment keeps the size key out of the
measurement data. -/
theorem foldl_mtLineStep_keys (nsizes : Nat) (ls : List (List Char)) :
    ∀ data, (∀ p ∈ data, p.1 ≠ "size") →
      ∀ p ∈ ls.foldl (mtLineStep nsizes) data, p.1 ≠ "size" := by
  induction ls with
  | nil => intro data h p hp; exact h p hp
  | cons line rest ih =>
    intro data h p hp
    exact ih _ (mtLineStep_keys nsizes line data h) p hp

/-- Membership in the segment fold of parseMultipleTables. -/
theorem mem_foldl_mtTableStep (lines : List (List Char)) (segs : List (Nat × Nat))
    (init : List OTable) :
    ∀ tb ∈ segs.foldl (mtTableStep lines) init,
      tb ∈ init ∨ ∃ seg ∈ segs, parseSegment lines seg.1 seg.2 = some tb := by
  induction segs generalizing init with
  | nil => intro tb htb; exact Or.inl htb
  | cons seg rest ih =>
    intro tb htb
    simp only [List.foldl_cons] at htb
    rcases ih _ tb htb with hin | ⟨seg2, hseg2, hpseg2⟩
    · cases hseg : parseSegment lines seg.1 seg.2 with
      | none =>
        rw [mtTableStep, hseg] at hin
        exact Or.inl hin
      | some tb2 =>
        rw [mtTableStep, hseg] at hin
        rcases List.mem_append.mp hin with hin | hin
        · exact Or.inl hin
        · exact Or.inr ⟨seg, List.mem_cons_self _ _,
            by rw [hseg, List.eq_of_mem_singleton hin]⟩
    · exact Or.inr ⟨seg2, List.mem_cons_of_mem _ hseg2, hpseg2⟩

/-- Every row of an accepted table segment has a nonempty string size
and a second property. -/
theorem parseSegment_invariant (lines : List (List Char)) (startIdx endIdx : Nat)
    (tb : OTable) (h : parseSegment lines startIdx endIdx = some tb) :
    ∀ r ∈ tb.rows,
      (∃ sz, aget r "size" = some (JVal.str sz) ∧ sz ≠ "") ∧ 2 ≤ r.length := by
  intro r hr
  simp only [parseSegment] at h
  split at h
  · exact absurd h (by simp)
  · split at h
    · exact absurd h (by simp)
    · split at h
      · have htb := Option.some.inj h
        have hrows : tb.rows = buildSizeRows
            (extractSizes ((lines.get? startIdx).getD []))
            (((lines.enum.filter (fun p =>
                decide (startIdx - 3 ≤ p.1 ∧ p.1 < startIdx))).map Prod.snd ++
              (lines.enum.filter (fun p =>
                decide (startIdx + 1 ≤ p.1 ∧ p.1 < endIdx))).map Prod.snd).foldl
              (mtLineStep (extractSizes ((lines.get? startIdx).getD [])).length) []) := by
          rw [← htb]
        rw [hrows] at hr
        exact buildSizeRows_invariant _ _
          (foldl_mtLineStep_keys _ _ [] (by simp))
          (extractSizes_ne _) r hr
      · exact absurd h (by simp)

/-- Every row of every table of the multi-table path has a nonempty
string size and a second property. -/
theorem parseMultipleTables_invariant (t : List Char) :
    ∀ tb ∈ parseMultipleTables t, ∀ r ∈ tb.rows,
      (∃ sz, aget r "size" = some (JVal.str sz) ∧ sz ≠ "") ∧ 2 ≤ r.length := by
  intro tb htb
  simp only [parseMultipleTables] at htb
  rcases mem_foldl_mtTableStep (toLines t)
      (segmentsOf (sizeRowIndices (toLines t)) (toLines t).length) [] tb htb
    with hin | ⟨seg, _, hseg⟩
  · simp at hin
  · exact parseSegment_invariant _ _ _ _ hseg

end RepMate

namespace RepMate

/-- C9.  Corrected: on the multi-table path the claimed invariant holds
— every row of every accepted table, and hence every top-level row when
that path is taken, stores a nonempty string under the size key and at
least one further measurement property — but the fallback path does not
guarantee it: the colon branch of parseAlternativeFormat pushes rows
without any key-count guard and resolves a label of Size to the key
size, overwriting the size label with a number. -/
theorem claim_C9 :
    (∀ t : List Char, ∀ tb ∈ parseMultipleTables t, ∀ r ∈ tb.rows,
      (∃ sz, aget r "size" = some (JVal.str sz) ∧ sz ≠ "") ∧ 2 ≤ r.length) ∧
    (∀ s : String, s ≠ "" →
      parseMultipleTables (translateChineseL (ocrFix s.data)) ≠ [] →
      ∀ r ∈ (parseSizeChart (some s)).rows,
        (∃ sz, aget r "size" = some (JVal.str sz) ∧ sz ≠ "") ∧ 2 ≤ r.length) := by
  refine ⟨parseMultipleTables_invariant, ?_⟩
  intro s hs hmt r hr
  have heq : (parseSizeChart (some s)).rows =
      ((parseMultipleTables (translateChineseL (ocrFix s.data))).head?.map
        OTable.rows).getD [] := by
    simp [parseSizeChart, hs, hmt]
  rw [heq] at hr
  cases hlist : parseMultipleTables (translateChineseL (ocrFix s.data)) with
  | nil => exact absurd hlist hmt
  | cons tb rest =>
    rw [hlist] at hr
    simp only [List.head?_cons, Option.map_some', Option.getD_some] at hr
    exact parseMultipleTables_invariant _ tb
      (by rw [hlist]; exact List.mem_cons_self _ _) r hr

/-- C9 counterexample.  On the input Size: 10 20 the returned rows hold
a number under the size key and no other property, refuting the claimed
invariant for the output of parseSizeChart. -/
theorem claim_C9_counterexample :
    (parseSizeChart (some "Size: 10 20")).rows =
      [[("size", JVal.num 10)], [("size", JVal.num 20)]] ∧
    ∀ r ∈ (parseSizeChart (some "Size: 10 20")).rows, r.length = 1 := by
  decide

/-- C9 witness: the multi-table invariant applied to a concrete chart. -/
theorem claim_C9_witness :
    (∃ sz, aget [("size", JVal.str "S"), ("chest", JVal.num 96)] "size" =
      some (JVal.str sz) ∧ sz ≠ "") ∧
    2 ≤ ([("size", JVal.str "S"), ("chest", JVal.num 96)] : Obj).length :=
  claim_C9.1 (("Size S M\nChest 96 100").data)
    ⟨["chest"],
     [[("size", JVal.str "S"), ("chest", JVal.num 96)],
      [("size", JVal.str "M"), ("chest", JVal.num 100)]], some "top"⟩
    (by decide)
    [("size", JVal.str "S"), ("chest", JVal.num 96)] (by decide)

/-- The header union of the multi-table path is the deduplication of
the concatenated headers in first-occurrence order. -/
theorem allHeadersOf_eq (ts : List OTable) :
    allHeadersOf ts = dedupL ((ts.map OTable.headers).flatten) := by
  have haux : ∀ (ts2 : List OTable) (acc : List String),
      ts2.foldl (fun acc2 tb => tb.headers.foldl
        (fun acc3 h => if h ∈ acc3 then acc3 else acc3 ++ [h]) acc2) acc =
      ((ts2.map OTable.headers).flatten).foldl
        (fun acc3 h => if h ∈ acc3 then acc3 else acc3 ++ [h]) acc := by
    intro ts2
    induction ts2 with
    | nil => intro acc; simp
    | cons tb rest ih =>
      intro acc
      simp only [List.foldl_cons, List.map_cons, List.flatten_cons,
        List.foldl_append]
      exact ih _
  exact haux ts []

/-- C10.  Confirmed: when the multi-table detector accepts at least one
segment, parseSizeChart returns exactly the accepted tables in order,
its top-level rows are the first table's rows, its headers are the
first-occurrence deduplication of all tables' headers, and no fallback
strategy affects the result. -/
theorem claim_C10 (s : String) (hs : s ≠ "")
    (hmt : parseMultipleTables (translateChineseL (ocrFix s.data)) ≠ []) :
    (parseSizeChart (some s)).tables =
      parseMultipleTables (translateChineseL (ocrFix s.data)) ∧
    (parseSizeChart (some s)).rows =
      ((parseMultipleTables (translateChineseL (ocrFix s.data))).head?.map
        OTable.rows).getD [] ∧
    (parseSizeChart (some s)).headers =
      dedupL (((parseMultipleTables (translateChineseL (ocrFix s.data))).map
        OTable.headers).flatten) := by
  refine ⟨?_, ?_, ?_⟩
  · simp [parseSizeChart, hs, hmt]
  · simp [parseSizeChart, hs, hmt]
  · rw [← allHeadersOf_eq]
    simp [parseSizeChart, hs, hmt]

/-- C10 witness: the multi-table equations applied to a two-measurement
chart, whose detector accepts one segment. -/
theorem claim_C10_witness :
    (parseSizeChart
      (some "Size S M L XL\nLength 65 67 69 71\nChest 100 104 108 112")).tables =
      parseMultipleTables (translateChineseL
        (ocrFix ("Size S M L XL\nLength 65 67 69 71\nChest 100 104 108 112").data)) ∧
    parseMultipleTables (translateChineseL
      (ocrFix ("Size S M L XL\nLength 65 67 69 71\nChest 100 104 108 112").data)) ≠ [] :=
  ⟨(claim_C10 "Size S M L XL\nLength 65 67 69 71\nChest 100 104 108 112"
      (by decide) (by decide)).1, by decide⟩

end RepMate
